import Mathlib

/-!
Verification development for the CONTROL web application (budget import,
revision overlay, valuation, finance and planned-curve logic from `app.js`).

Modelling conventions of this shallow embedding:
* JavaScript numbers are modelled as `ℚ`; the IEEE-754 value `NaN` (and
  `±Infinity`) is a separate `Cell.nan` constructor where it can occur in
  input cells, and `Option ℚ` is used where the code distinguishes
  `null`/non-finite from a finite number (`none` = `null`/non-finite).
* JavaScript strings are modelled as `String`; `null`/`undefined` string
  fields are modelled as `Option String` where the code tests for them,
  and plain `String` (with `""` for `null`) where the code only ever
  coalesces with `|| ""`.
* Core `String` library functions are re-implemented structurally over
  `List Char` (the core versions do not reduce well in proofs); JavaScript
  string operations compare UTF-16 code units, which for the code points
  appearing here coincides with comparing `Char` code points.
* `Array.prototype.sort` with a consistent comparator is modelled as a
  stable insertion sort (`stableSort`), which is extensionally the unique
  stable sort for the comparator.
* `toLowerCase` is modelled on ASCII letters only (the Spanish keyword
  tables in the source are already lower-case).
-/

namespace Control

/-! ### Character / string primitives (re-implemented structurally) -/

/-- ASCII lower-casing of one character (models `toLowerCase` on the
code points relevant here). -/
def lowerChar (c : Char) : Char :=
  if 'A' ≤ c ∧ c ≤ 'Z' then Char.ofNat (c.toNat + 32) else c

/-- Lower-case a string (JS `toLowerCase`, ASCII fragment). -/
def toLowerS (s : String) : String := ⟨s.toList.map lowerChar⟩

/-- Whitespace recognised by JS `trim` (common cases). -/
def isWS (c : Char) : Bool := c = ' ' ∨ c = '\t' ∨ c = '\n' ∨ c = '\r'

/-- Trim whitespace from both ends of a character list. -/
def trimL (cs : List Char) : List Char :=
  ((cs.dropWhile isWS).reverse.dropWhile isWS).reverse

/-- JS `String.prototype.trim`. -/
def trimS (s : String) : String := ⟨trimL s.toList⟩

/-- Does `pat` occur as a prefix of the second list? -/
def isPrefixL : List Char → List Char → Bool
  | [], _ => true
  | _ :: _, [] => false
  | p :: ps, c :: cs => p == c && isPrefixL ps cs

/-- Does `pat` occur as a contiguous sublist? -/
def containsSubL (pat : List Char) : List Char → Bool
  | [] => isPrefixL pat []
  | c :: rest => isPrefixL pat (c :: rest) || containsSubL pat rest

/-- JS `String.prototype.includes` (for non-empty patterns). -/
def jsIncludes (s pat : String) : Bool := containsSubL pat.toList s.toList

/-- JS `String.prototype.startsWith`. -/
def startsWithS (s pre : String) : Bool := isPrefixL pre.toList s.toList

/-- Split a character list on a single separator character
(JS `split(sep)` for the one-character separators used in the source). -/
def splitOnCharL (sep : Char) : List Char → List (List Char)
  | [] => [[]]
  | c :: rest =>
    let r := splitOnCharL sep rest
    if c == sep then [] :: r
    else
      match r with
      | h :: t => (c :: h) :: t
      | [] => [[c]]

/-- Join character lists with `'.'` (JS `parts.join(".")`). -/
def joinDots : List (List Char) → List Char
  | [] => []
  | [p] => p
  | p :: rest => p ++ '.' :: joinDots rest

/-- ASCII digit test (JS regex `\d`). -/
def isDigitC (c : Char) : Bool := '0' ≤ c ∧ c ≤ '9'

/-- Numeric value of a digit list (big-endian). -/
def digitsToNat (ds : List Char) : ℕ := ds.foldl (fun a c => a * 10 + (c.toNat - 48)) 0

/-- JS code-unit comparison `a < b` on strings, on character lists. -/
def jsStrLtL : List Char → List Char → Bool
  | [], [] => false
  | [], _ :: _ => true
  | _ :: _, [] => false
  | a :: as, b :: bs =>
    if a.toNat < b.toNat then true
    else if b.toNat < a.toNat then false
    else jsStrLtL as bs

/-- JS string comparison `a < b` (code-unit lexicographic). -/
def jsStrLt (a b : String) : Bool := jsStrLtL a.toList b.toList

/-- JS string comparison `a <= b`, i.e. `!(b < a)`. -/
def jsStrLe (a b : String) : Bool := !(jsStrLt b a)

/-- Stable insertion into a list sorted by the strict comparator `lt`
(the element is placed before elements it ties with, preserving the
relative order `Array.prototype.sort` guarantees). -/
def insertSorted (lt : α → α → Bool) (x : α) : List α → List α
  | [] => [x]
  | y :: ys => if lt y x then y :: insertSorted lt x ys else x :: y :: ys

/-- Stable sort by the strict comparator `lt`; models
`Array.prototype.sort` with a consistent comparator. -/
def stableSort (lt : α → α → Bool) : List α → List α
  | [] => []
  | x :: xs => insertSorted lt x (stableSort lt xs)

/-- JS `x || default` on an optional string field (`null`/`undefined` and
`""` are falsy). -/
def jsOrS (v : Option String) (d : String) : String :=
  match v with
  | some s => if s = "" then d else s
  | none => d

/-- JS `x || 0` on an optional number (`null` and `0` are falsy; the
result is the number itself otherwise). -/
def jsOrZero (v : Option ℚ) : ℚ :=
  match v with
  | some x => if x = 0 then 0 else x
  | none => 0

/-! ### Decoded spreadsheet cells

A decoded cell (output of the external sheet decoder, `raw:true`): a
finite number, a non-finite number (`NaN`/`±Infinity`), a text, or
empty (`null`/`undefined`). -/

inductive Cell
  | num (q : ℚ)
  | nan
  | str (s : String)
  | empty
deriving DecidableEq

/-- Digits of the fractional part `r/den` (`r < den`), most significant
first; fuel bounds the expansion (any IEEE-754 double terminates well
within 40 digits). -/
def fracDigitsN (fuel den : ℕ) (r : ℕ) : List Char :=
  match fuel with
  | 0 => []
  | fuel + 1 =>
    if r = 0 then []
    else Char.ofNat (48 + (r * 10) / den) :: fracDigitsN fuel den ((r * 10) % den)

/-- JS `String(number)` for numbers with terminating decimal expansion
(every double; exponent notation for huge magnitudes is not modelled). -/
def qToStr (q : ℚ) : String :=
  let n := q.num.natAbs
  let d := q.den
  let ip := Nat.repr (n / d)
  let frac := fracDigitsN 40 d (n % d)
  let core := if frac.isEmpty then ip else ip ++ "." ++ ⟨frac⟩
  if q.num < 0 then "-" ++ core else core

/-- JS `String(c ?? "")`: the string form of a cell, with
`null`/`undefined` going to `""`. -/
def Cell.toStr : Cell → String
  | .num q => qToStr q
  | .nan => "NaN"
  | .str s => s
  | .empty => ""

/-! ### Settings (`defaultSettings` in the source) -/

structure Settings where
  moneyDecimals : ℤ
  qtyDecimals : ℤ
  highlightExtraQty : Bool
  shiftPlannedBySuspensions : Bool
deriving DecidableEq

/-- `defaultSettings`: `moneyDecimals` 0 (`-3` is the round-to-thousands
sentinel), `qtyDecimals` 2. -/
def defaultSettings : Settings :=
  { moneyDecimals := 0, qtyDecimals := 2,
    highlightExtraQty := true, shiftPlannedBySuspensions := true }

/-! ### Numeric parsing (`parseNumber`) -/

/-- The scanned fields of a JS decimal number literal:
sign, integer part, fractional digits (value and count), exponent. -/
structure NumLit where
  neg : Bool
  intPart : ℕ
  fracPart : ℕ
  fracLen : ℕ
  exp : ℤ
deriving DecidableEq

/-- Scan an optional exponent suffix (`e`/`E`, optional sign, digits). -/
def scanExp (neg : Bool) (ip fp fl : ℕ) : List Char → Option NumLit
  | [] => some ⟨neg, ip, fp, fl, 0⟩
  | e :: r =>
    if e == 'e' || e == 'E' then
      match r with
      | '+' :: ds =>
        if !ds.isEmpty && ds.all isDigitC then some ⟨neg, ip, fp, fl, (digitsToNat ds : ℤ)⟩
        else none
      | '-' :: ds =>
        if !ds.isEmpty && ds.all isDigitC then some ⟨neg, ip, fp, fl, -(digitsToNat ds : ℤ)⟩
        else none
      | ds =>
        if !ds.isEmpty && ds.all isDigitC then some ⟨neg, ip, fp, fl, (digitsToNat ds : ℤ)⟩
        else none
    else none

/-- Scan the mantissa `digits [. digits]` (at least one digit overall). -/
def scanMantissa (neg : Bool) (cs : List Char) : Option NumLit :=
  let ip := cs.takeWhile isDigitC
  let r1 := cs.dropWhile isDigitC
  match r1 with
  | '.' :: r2 =>
    let fp := r2.takeWhile isDigitC
    let r3 := r2.dropWhile isDigitC
    if ip.isEmpty && fp.isEmpty then none
    else scanExp neg (digitsToNat ip) (digitsToNat fp) fp.length r3
  | _ => if ip.isEmpty then none else scanExp neg (digitsToNat ip) 0 0 r1

/-- Scan a JS decimal number literal; `none` stands for `NaN` (it is also
returned for `Infinity`, which the caller's `Number.isFinite` guard
rejects just like `NaN`; hexadecimal/binary literals are not modelled). -/
def scanNumLit (cs : List Char) : Option NumLit :=
  match cs with
  | [] => some ⟨false, 0, 0, 0, 0⟩
  | _ =>
    let (neg, rest) :=
      match cs with
      | '+' :: r => (false, r)
      | '-' :: r => (true, r)
      | r => (false, r)
    if rest == "Infinity".toList then none else scanMantissa neg rest

/-- Powers of ten on `ℚ` (structural; `Math.pow(10, n)` for `n : ℕ`). -/
def pow10 : ℕ → ℚ
  | 0 => 1
  | n + 1 => pow10 n * 10

/-- `Math.pow(10, d)` for an integer exponent. -/
def zpow10 (d : ℤ) : ℚ := if 0 ≤ d then pow10 d.toNat else (pow10 (-d).toNat)⁻¹

/-- The rational value of a scanned number literal. -/
def NumLit.toRat (l : NumLit) : ℚ :=
  let mag : ℚ := ((l.intPart : ℚ) + (l.fracPart : ℚ) / pow10 l.fracLen) * zpow10 l.exp
  if l.neg then -mag else mag

/-- JS `Number(s)` restricted to finite results: `none` when the result
is `NaN` or `±Infinity` (the string is trimmed first, as `Number` does). -/
def jsNumberL (cs : List Char) : Option ℚ := (scanNumLit (trimL cs)).map NumLit.toRat

/-- JS `replaceAll(".", "")` on a character list. -/
def dropDots (cs : List Char) : List Char := cs.filter (fun c => c != '.')

/-- JS `replace(",", ".")`: replace the first comma with a dot. -/
def replaceFirstCommaDot : List Char → List Char
  | [] => []
  | c :: rest => if c == ',' then '.' :: rest else c :: replaceFirstCommaDot rest

/-- `parseNumber(v)`: numbers pass through when finite; text is trimmed,
Colombian separators are normalised ("1.234,56" drops the dots and turns
the comma into a dot; "1234,56" turns the comma into a dot), and the
result is the finite value of `Number(...)` or `null`. -/
def parseNumber (v : Cell) : Option ℚ :=
  match v with
  | .empty => none
  | .num q => some q
  | .nan => none
  | .str v =>
    let cs := trimL v.toList
    if cs.isEmpty then none
    else
      let hasComma := cs.any (fun c => c == ',')
      let hasDot := cs.any (fun c => c == '.')
      let norm :=
        if hasComma && hasDot then replaceFirstCommaDot (dropDots cs)
        else if hasComma && !hasDot then replaceFirstCommaDot cs
        else cs
      jsNumberL norm

/-! ### Rounding (`roundByDecimals`) -/

/-- JS `Math.round` (half-up, i.e. toward `+∞`). -/
def jsRound (x : ℚ) : ℤ := ⌊x + 1 / 2⌋

/-- `roundByDecimals(value, decimals)`: `null` passes through; `-3` is
the round-to-nearest-thousand sentinel; otherwise round to `decimals`
digits via `Math.round(x * 10^d) / 10^d`. -/
def roundByDecimals (value : Option ℚ) (decimals : ℤ) : Option ℚ :=
  match value with
  | none => none
  | some x =>
    if decimals = -3 then some ((jsRound (x / 1000) : ℚ) * 1000)
    else
      let p := zpow10 decimals
      some ((jsRound (x * p) : ℚ) / p)

/-- `decimalsCount(n)`: the number of digits after the decimal point in
`String(n)` (`0` for `null` or integral values). -/
def decimalsCount (n : Option ℚ) : ℕ :=
  match n with
  | none => 0
  | some q =>
    match splitOnCharL '.' (qToStr q).toList with
    | [_, f] => f.length
    | _ => 0

/-! ### Code normalisation and row classification -/

/-- `normalizeCode(code)`: trim, then strip one trailing `"."`. -/
def normalizeCode (code : String) : String :=
  let cs := trimL code.toList
  ⟨if cs.getLast? = some '.' then cs.dropLast else cs⟩

/-- The regex `^\d+(\.\d+)*$`: dot-separated non-empty digit groups. -/
def isNumericCode (s : String) : Bool :=
  (splitOnCharL '.' s.toList).all (fun p => !p.isEmpty && p.all isDigitC)

/-- `codeLevel(codeNorm)`: number of dot segments of a hierarchical
numeric code, `99` for other non-empty codes, `0` for the empty code. -/
def codeLevel (codeNorm : String) : ℕ :=
  if codeNorm = "" then 0
  else if isNumericCode codeNorm then (splitOnCharL '.' codeNorm.toList).length
  else 99

/-- The semantic row types assigned by `classifyRow`. -/
inductive RowType
  | OTHER | SUBTOTAL | AIU | TOTAL | LUMP | TEXT | CAP | SUB | ITEM
deriving DecidableEq

/-- `classifyRow(code, desc, qty, unit, vu, vt)`: ordered first-match
classification of one decoded row (the `qty`, `unit`, `vu` arguments are
accepted but unused, as in the source). -/
def classifyRow (code desc : Cell) (_qty : Option ℚ) (_unit : Cell) (_vu vt : Option ℚ) :
    RowType :=
  let cRaw := trimS code.toStr
  let dRaw := trimS desc.toStr
  let cLow := toLowerS cRaw
  let dLow := toLowerS dRaw
  if cRaw = "" ∧ dRaw = "" then .OTHER
  else if startsWithS cLow "subtotal" || startsWithS dLow "subtotal" then .SUBTOTAL
  else if startsWithS dLow "administr" || startsWithS dLow "imprev" ||
      startsWithS dLow "utilidad" || jsIncludes dLow "a.i.u" || dLow == "aiu" ||
      startsWithS cLow "administr" || startsWithS cLow "imprev" ||
      startsWithS cLow "utilidad" || jsIncludes cLow "a.i.u" || cLow == "aiu" then .AIU
  else if jsIncludes dLow "valor total" || jsIncludes cLow "valor total" ||
      jsIncludes dLow "incluye a.i.u" || jsIncludes dLow "incluye aiu" ||
      jsIncludes cLow "incluye a.i.u" || jsIncludes cLow "incluye aiu" then .TOTAL
  else
    let hasVT := vt.isSome
    if cRaw = "" ∧ dRaw ≠ "" then (if hasVT then .LUMP else .TEXT)
    else
      let cn := normalizeCode cRaw
      if isNumericCode cn then
        let lvl := codeLevel cn
        if lvl = 1 then .CAP else if lvl = 2 then .SUB else .ITEM
      else if cn ≠ "" then .ITEM
      else .OTHER

/-! ### Data model

Embedded fields are the ones the modelled functions read; UI-only fields
(ids, labels, notes, parties, dates of the contract) are omitted.
`Option ℚ` fields model number-or-`null` storage slots (the code guards
them with `?? 0` or `typeof ... === "number"`). -/

/-- One `Change` of a revision: target code and optional new values. -/
structure Change where
  itemCodeNorm : String
  qtyNew : Option ℚ
  vuNew : Option ℚ
deriving DecidableEq

/-- One budget revision (`rev.changes`; name/visibility flag omitted). -/
structure Revision where
  changes : List Change
deriving DecidableEq

/-- One imported budget row (`items` entries; the random `id` omitted). -/
structure BudgetItem where
  code : String
  codeNorm : String
  desc : String
  unit : String
  qtyContract : Option ℚ
  vuContract : Option ℚ
  vtContract : Option ℚ
  parentCodeNorm : String
  type : RowType
deriving DecidableEq

/-- The budget: items plus the ordered revision list. -/
structure Budget where
  items : List BudgetItem
  revisions : List Revision
deriving DecidableEq

/-- A progress report: cutoff date (`""` models a missing date, as the
code always coalesces with `|| ""`) and the cumulative-quantity map
(modelled as an association list with unique keys, first match wins). -/
structure Report where
  cutoffDate : String
  qtyAccumByItem : List (String × ℚ)
deriving DecidableEq

/-- A finance event; `date` is `none` when unset, `amount` is a
number-or-`null` slot. -/
structure FinanceEvent where
  date : Option String
  amount : Option ℚ
deriving DecidableEq

/-- A suspension interval. The code parses the stored `from`/`to`
strings with `new Date(... + "T00:00:00")` and skips the interval when
either is falsy or unparseable; we model a parsed endpoint directly as a
day number (`ℤ`, days since an arbitrary epoch) and `none` for the
skipped cases. -/
structure Suspension where
  fromDate : Option ℤ
  toDate : Option ℤ
deriving DecidableEq

/-- Contract header (only the currency is read by the modelled logic). -/
structure Contract where
  currency : String
deriving DecidableEq

/-- Finance record. -/
structure Finance where
  events : List FinanceEvent
deriving DecidableEq

/-- The project aggregate (fields read by the modelled functions). -/
structure Project where
  contract : Contract
  suspensions : List Suspension
  budget : Budget
  reports : List Report
  finance : Finance
deriving DecidableEq

/-- `typeof map[code] === "number" ? map[code] : 0` on a quantity map. -/
def lookupQty (m : List (String × ℚ)) (k : String) : ℚ :=
  match m.find? (fun e => e.1 == k) with
  | some e => e.2
  | none => 0

/-- `project.contract.currency || "COP"`. -/
def currencyOf (p : Project) : String := if p.contract.currency = "" then "COP" else p.contract.currency

/-! ### Revision overlay (`budgetEffectiveItem`) -/

/-- The effective quantity/price/total of an item. -/
structure Eff where
  qty : ℚ
  vu : ℚ
  vt : ℚ
deriving DecidableEq

/-- `budgetEffectiveItem(item, project)`: start from the base
quantity/price (`?? 0`), apply each revision in stored order — a
revision's matching `Change` overwrites exactly the fields it sets —
and return the running values with `vt = qty * vu`. (The unused
`asOfDate` parameter of the source is dropped.) -/
def budgetEffectiveItem (item : BudgetItem) (project : Project) : Eff :=
  let st := project.budget.revisions.foldl
    (fun (st : ℚ × ℚ) rev =>
      match rev.changes.find? (fun c => c.itemCodeNorm == item.codeNorm) with
      | some ch => (ch.qtyNew.getD st.1, ch.vuNew.getD st.2)
      | none => st)
    (item.qtyContract.getD 0, item.vuContract.getD 0)
  ⟨st.1, st.2, st.1 * st.2⟩

/-! ### Valuation (`contractValue`, reports, percentages) -/

/-- A money result `{value, currency}`. -/
structure MoneyValue where
  value : Option ℚ
  currency : String
deriving DecidableEq

/-- The authoritative-total predicate of `contractValue`: a `TOTAL` row
whose description contains "valor total" and whose stored total is a
finite number. -/
def isAuthoritativeTotal (it : BudgetItem) : Bool :=
  it.type == RowType.TOTAL && jsIncludes (toLowerS it.desc) "valor total" && it.vtContract.isSome

/-- `contractValue(project, settings)`: use the first authoritative
`TOTAL` row when present; otherwise sum `qty*vu` of effective `ITEM`
rows plus the stored totals of `AIU`/`LUMP` rows (`SUBTOTAL` and the
rest excluded), rounding per the money precision. -/
def contractValue (project : Project) (settings : Settings) : MoneyValue :=
  let cur := currencyOf project
  match project.budget.items.find? isAuthoritativeTotal with
  | some totalRow => ⟨roundByDecimals totalRow.vtContract settings.moneyDecimals, cur⟩
  | none =>
    let sum := project.budget.items.foldl
      (fun acc it =>
        if it.type == RowType.ITEM then
          let eff := budgetEffectiveItem it project
          acc + eff.qty * eff.vu
        else if it.type == RowType.AIU || it.type == RowType.LUMP then
          acc + it.vtContract.getD 0
        else acc)
      0
    ⟨roundByDecimals (some sum) settings.moneyDecimals, cur⟩

/-- `previousReport(project, report)`: among the reports with cutoff
date strictly (code-unit) below this report's, sort by cutoff date and
take the last, or `null`. -/
def previousReport (project : Project) (report : Report) : Option Report :=
  let cutoff := report.cutoffDate
  (stableSort (fun a b => jsStrLt a.cutoffDate b.cutoffDate)
      (project.reports.filter (fun r => jsStrLt r.cutoffDate cutoff))).getLast?

/-- Result of `computeExecutedValues`. -/
structure ExecutedValues where
  accumVal : Option ℚ
  periodVal : Option ℚ
  currency : String
deriving DecidableEq

/-- `computeExecutedValues(project, report)` (the ambient `settings` is
passed explicitly): for every `ITEM`, accumulate
`accumQty * effectivePrice` and `(accumQty - prevQty) * effectivePrice`,
with quantities defaulting to 0 when absent from the maps. -/
def computeExecutedValues (project : Project) (settings : Settings) (report : Report) :
    ExecutedValues :=
  let prevMap := match previousReport project report with
    | some prev => prev.qtyAccumByItem
    | none => []
  let map := report.qtyAccumByItem
  let cur := currencyOf project
  let totals := project.budget.items.foldl
    (fun (acc : ℚ × ℚ) it =>
      if it.type == RowType.ITEM then
        let eff := budgetEffectiveItem it project
        let qa := lookupQty map it.codeNorm
        let qp0 := lookupQty prevMap it.codeNorm
        (acc.1 + qa * eff.vu, acc.2 + (qa - qp0) * eff.vu)
      else acc)
    (0, 0)
  ⟨roundByDecimals (some totals.1) settings.moneyDecimals,
    roundByDecimals (some totals.2) settings.moneyDecimals, cur⟩

/-- `computeExecutedPct(project, report)`: `accumVal / contractValue`,
`null` when the (`|| 0`-coalesced) contract value is `≤ 0`. -/
def computeExecutedPct (project : Project) (settings : Settings) (report : Report) :
    Option ℚ :=
  let cv := jsOrZero (contractValue project settings).value
  if cv ≤ 0 then none
  else some ((computeExecutedValues project settings report).accumVal.getD 0 / cv)

/-! ### Finance (`financeAccumUpTo`, `computeFinancePct`) -/

/-- `financeAccumUpTo(project, cutoffDate)`: sum the amounts of events
whose (`|| ""`-coalesced) date is `<=` the (`|| "9999-12-31"`-coalesced)
cutoff, rounded per the money precision. -/
def financeAccumUpTo (project : Project) (settings : Settings) (cutoffDate : Option String) :
    Option ℚ :=
  let date := jsOrS cutoffDate "9999-12-31"
  let sum := (project.finance.events.filter (fun e => jsStrLe (jsOrS e.date "") date)).foldl
    (fun acc e => acc + e.amount.getD 0) 0
  roundByDecimals (some sum) settings.moneyDecimals

/-- `computeFinancePct(project, cutoffDate)`: accumulated disbursement
over contract value, `null` when the contract value is `≤ 0`. -/
def computeFinancePct (project : Project) (settings : Settings) (cutoffDate : Option String) :
    Option ℚ :=
  let cv := jsOrZero (contractValue project settings).value
  if cv ≤ 0 then none
  else some ((financeAccumUpTo project settings cutoffDate).getD 0 / cv)

/-! ### Suspension shifting (`shiftDateBySuspensions`) -/

/-- The loop of `shiftDateBySuspensions`: add the inclusive day length
`to - from + 1` of every suspension with both endpoints present whose
end is on or before `d`. -/
def suspensionExtraDays (d : ℤ) (ss : List Suspension) : ℤ :=
  ss.foldl
    (fun acc s =>
      match s.fromDate, s.toDate with
      | some a, some b => if b ≤ d then acc + (b - a + 1) else acc
      | _, _ => acc)
    0

/-- `shiftDateBySuspensions(dateISO, project)` on day numbers: the date
plus the summed frozen days of suspensions ending on or before it. -/
def shiftDateBySuspensions (d : ℤ) (project : Project) : ℤ :=
  d + suspensionExtraDays d project.suspensions

/-! ### Budget table parsing (`findHeaderRow`, `mapColumns`,
`parseBudgetFromSheet`) -/

/-- The header keyword table of `findHeaderRow`. -/
def headerKeywords : List String :=
  ["item", "ítem", "codigo", "código", "descripcion", "descripción", "unidad", "und",
    "cantidad", "cant", "valor", "unit", "total", "vt", "vu"]

/-- The lower-cased, trimmed, non-empty cell texts of one row. -/
def rowTexts (r : List Cell) : List String :=
  (r.map (fun c => trimS (toLowerS c.toStr))).filter (fun t => t ≠ "")

/-- The score of one candidate header row:
`3 × keyword-hits + min(non-empty-cells, 12)`. -/
def rowScore (r : List Cell) : ℕ :=
  let text := rowTexts r
  let hits := text.countP (fun t => headerKeywords.any (fun kw => jsIncludes t kw))
  hits * 3 + min text.length 12

/-- `findHeaderRow(rows)`: the index (first 80 rows) with the highest
positive score, `-1` when every score is zero. -/
def findHeaderRow (rows : List (List Cell)) : ℤ :=
  let best := (rows.take 80).enum.foldl
    (fun (best : ℤ × ℕ) (p : ℕ × List Cell) =>
      let score := rowScore p.2
      if score > best.2 then ((p.1 : ℤ), score) else best)
    (-1, 0)
  best.1

/-- The column indices found by `mapColumns` (`-1` = not found). -/
structure Cols where
  code : ℤ
  desc : ℤ
  unit : ℤ
  qty : ℤ
  vu : ℤ
  vt : ℤ
deriving DecidableEq

/-- First column whose non-empty lower-cased text contains one of the
synonyms, else `-1`. -/
def findCol (header : List String) (preds : List String) : ℤ :=
  match header.enum.find? (fun p => p.2 != "" && preds.any (fun q => jsIncludes p.2 q)) with
  | some p => (p.1 : ℤ)
  | none => -1

/-- `mapColumns(headerRow)`. -/
def mapColumns (headerRow : List Cell) : Cols :=
  let header := headerRow.map (fun h => trimS (toLowerS h.toStr))
  { code := findCol header ["item", "ítem", "codigo", "código"],
    desc := findCol header ["descripcion", "descripción", "desc"],
    unit := findCol header ["unidad", "und"],
    qty := findCol header ["cantidad", "cant"],
    vu := findCol header ["valor unit", "vr unit", "v/u", "vu"],
    vt := findCol header ["valor total", "vr total", "total", "vt"] }

/-- `row[i]` for a possibly negative mapped index (`null`/`undefined`
out-of-range access both modelled as the empty cell). -/
def cellAt (row : List Cell) (i : ℤ) : Cell :=
  if 0 ≤ i then row.getD i.toNat Cell.empty else Cell.empty

/-- `row.every(c => c === null || c === "")`. -/
def isBlankRow (row : List Cell) : Bool :=
  row.all (fun c => c == Cell.empty || c == Cell.str "")

/-- The body of the row loop of `parseBudgetFromSheet`: build the
`BudgetItem` for one non-blank, non-`OTHER` row (`none` = skipped). -/
def buildItem (cols : Cols) (row : List Cell) : Option BudgetItem :=
  if isBlankRow row then none
  else
    let code := if cols.code ≥ 0 then cellAt row cols.code else Cell.empty
    let desc := if cols.desc ≥ 0 then cellAt row cols.desc else Cell.empty
    let unit := if cols.unit ≥ 0 then cellAt row cols.unit else Cell.empty
    let qty := if cols.qty ≥ 0 then parseNumber (cellAt row cols.qty) else none
    let vu := if cols.vu ≥ 0 then parseNumber (cellAt row cols.vu) else none
    let vt := if cols.vt ≥ 0 then parseNumber (cellAt row cols.vt) else none
    let typ := classifyRow code desc qty unit vu vt
    if typ == RowType.OTHER then none
    else
      let codeStr := trimS code.toStr
      let descStr := trimS desc.toStr
      let moved := typ == RowType.SUBTOTAL && descStr == "" &&
        startsWithS (toLowerS codeStr) "subtotal"
      let codeStr2 := if moved then "" else codeStr
      let descStr2 := if moved then codeStr else descStr
      let codeNorm := normalizeCode codeStr2
      let lvl := codeLevel codeNorm
      let parent :=
        if lvl ≥ 2 && isNumericCode codeNorm then
          (⟨joinDots ((splitOnCharL '.' codeNorm.toList).dropLast)⟩ : String)
        else ""
      some { code := codeStr2, codeNorm := codeNorm, desc := descStr2,
             unit := trimS unit.toStr,
             qtyContract := some (qty.getD 0),
             vuContract := some (vu.getD 0),
             vtContract := some (vt.getD (qty.getD 0 * vu.getD 0)),
             parentCodeNorm := parent, type := typ }

/-- Result of `parseBudgetFromSheet`. -/
structure BudgetParse where
  items : List BudgetItem
  warnings : List String
deriving DecidableEq

/-- `parseBudgetFromSheet(rows)` (ambient `settings` passed explicitly):
header detection, column mapping with a missing-columns warning, row
construction, and the excess-quantity-decimals warning. -/
def parseBudgetFromSheet (settings : Settings) (rows : List (List Cell)) : BudgetParse :=
  let headerIdx := findHeaderRow rows
  if headerIdx < 0 then ⟨[], ["No se encontró fila de encabezados."]⟩
  else
    let hIdx := headerIdx.toNat
    let headerRow := rows.getD hIdx []
    let cols := mapColumns headerRow
    let missing := (([("code", cols.code), ("desc", cols.desc), ("unit", cols.unit),
        ("qty", cols.qty), ("vu", cols.vu)].filter (fun p => p.2 < 0)).map (fun p => p.1))
    let warnings :=
      if missing.isEmpty then []
      else ["Faltan columnas mínimas detectables: " ++ String.intercalate ", " missing ++
        ". Puedes renombrarlas en Excel o ajustar manualmente (próxima versión)."]
    let items := (rows.drop (hIdx + 1)).filterMap (buildItem cols)
    let extra := items.filter (fun it => (decimalsCount it.qtyContract : ℤ) > settings.qtyDecimals)
    let warnings2 :=
      if extra.isEmpty then warnings
      else warnings ++
        [s!"Hay {extra.length} cantidad(es) con más de {settings.qtyDecimals} decimales en el presupuesto. Se resaltarán."]
    ⟨items, warnings2⟩

/-! ### Date recognition (`toISODate`) -/

/-- Left-pad a number to two digits (`String(n).padStart(2, "0")`). -/
def padTwo (n : ℕ) : String := if n < 10 then "0" ++ Nat.repr n else Nat.repr n

/-- Civil date from a day count (days since 1970-01-01), returning
`(year, month, day)`; standard proleptic-Gregorian conversion. -/
def civilFromDays (z : ℤ) : ℕ × ℕ × ℕ :=
  let za := (z + 719468).toNat
  let era := za / 146097
  let doe := za % 146097
  let yoe := (doe - doe / 1460 + doe / 36524 - doe / 146096) / 365
  let y := yoe + era * 400
  let doy := doe - (365 * yoe + yoe / 4 - yoe / 100)
  let mp := (5 * doy + 2) / 153
  let d := doy - (153 * mp + 2) / 5 + 1
  let m := if mp < 10 then mp + 3 else mp - 9
  (if m ≤ 2 then y + 1 else y, m, d)

/-- Modelled from the spec: the external spreadsheet-decoding library's
date-serial conversion (`XLSX.SSF.parse_date_code`, not part of this
repository) — "numeric spreadsheet date serials" in the 1900 date
system: serial 1 is 1900-01-01, serial 60 is the phantom 1900-02-29,
non-positive serials are not dates. -/
def excelSerialToISO (q : ℚ) : Option String :=
  let d := ⌊q⌋
  if d ≤ 0 then none
  else if d = 60 then some "1900-02-29"
  else
    let d' := if d > 60 then d - 1 else d
    let c := civilFromDays (d' - 25568)
    some (Nat.repr c.1 ++ "-" ++ padTwo c.2.1 ++ "-" ++ padTwo c.2.2)

/-- The regex `^\d{4}-\d{2}-\d{2}$`. -/
def isIsoShaped (s : String) : Bool :=
  match s.toList with
  | [y1, y2, y3, y4, '-', m1, m2, '-', d1, d2] =>
    [y1, y2, y3, y4, m1, m2, d1, d2].all isDigitC
  | _ => false

/-- The regex `^(\d{1,2})[\/\-](\d{1,2})[\/\-](\d{4})$` rebuilt as
`YYYY-MM-DD` (day and month re-padded via `Number` + `padStart`). -/
def parseDMY (s : String) : Option String :=
  let cs := s.toList
  let d1 := cs.takeWhile isDigitC
  let r1 := cs.dropWhile isDigitC
  if d1.length < 1 || d1.length > 2 then none
  else
    match r1 with
    | sep1 :: rest1 =>
      if sep1 ≠ '/' ∧ sep1 ≠ '-' then none
      else
        let d2 := rest1.takeWhile isDigitC
        let r2 := rest1.dropWhile isDigitC
        if d2.length < 1 || d2.length > 2 then none
        else
          match r2 with
          | sep2 :: rest2 =>
            if sep2 ≠ '/' ∧ sep2 ≠ '-' then none
            else if rest2.length = 4 ∧ rest2.all isDigitC then
              some ((⟨rest2⟩ : String) ++ "-" ++ padTwo (digitsToNat d2) ++ "-" ++
                padTwo (digitsToNat d1))
            else none
          | [] => none
    | [] => none

/-- `toISODate(v)`: `Date` inputs do not occur with `raw:true` decoding;
numbers go through the date-serial conversion; strings are trimmed and
matched against ISO then `DD/MM/YYYY`-`DD-MM-YYYY`; everything else is
`null`. (A number whose serial conversion fails falls through to the
string regexes in the source, which never match a plain number string.) -/
def toISODate (v : Cell) : Option String :=
  match v with
  | .empty => none
  | .nan => none
  | .num q => excelSerialToISO q
  | .str s0 =>
    let s := trimS s0
    if isIsoShaped s then some s else parseDMY s

/-! ### Planned-curve import (`parsePlanned`) -/

/-- A raw `(date, cost)` pair collected by either shape. -/
structure PlannedPoint where
  date : String
  cost : ℚ
deriving DecidableEq

/-- A point of the final curve. -/
structure CurvePoint where
  date : String
  plannedCostAccum : ℚ
deriving DecidableEq

/-- Result of `parsePlanned`. -/
structure PlannedParse where
  curve : List CurvePoint
  warnings : List String
deriving DecidableEq

/-- JS `Map.prototype.get(k) || 0` on an insertion-ordered map. -/
def mapGet (m : List (String × ℚ)) (k : String) : ℚ :=
  match m.find? (fun e => e.1 == k) with
  | some e => e.2
  | none => 0

/-- JS `Map.prototype.set(k, v)`: update in place, else append. -/
def mapSet (m : List (String × ℚ)) (k : String) (v : ℚ) : List (String × ℚ) :=
  if m.any (fun e => e.1 == k) then m.map (fun e => if e.1 == k then (k, v) else e)
  else m ++ [(k, v)]

/-- JS `findIndex`. -/
def jsFindIndex (l : List String) (p : String → Bool) : ℤ :=
  match l.enum.find? (fun e => p e.2) with
  | some e => (e.1 : ℤ)
  | none => -1

/-- The final accumulation pass: running cumulative sum over the sorted
per-date totals. -/
def cumulate (acc : ℚ) : List (String × ℚ) → List CurvePoint
  | [] => []
  | (d, c) :: rest => ⟨d, acc + c⟩ :: cumulate (acc + c) rest

/-- The shared tail of `parsePlanned`: sum the raw costs per unique date
(insertion-ordered map), sort the entries by date, and emit the running
cumulative sum. -/
def aggregateCurve (points : List PlannedPoint) : List CurvePoint :=
  let byDate := points.foldl (fun m p => mapSet m p.date (mapGet m p.date + p.cost)) []
  let sorted := stableSort (fun a b => jsStrLt a.1 b.1) byDate
  cumulate 0 sorted

/-- Shape A extraction: for each row after the header, keep the pair
when the cost parses and the date is recognised. -/
def shapeAPoints (rows : List (List Cell)) (start : ℕ) (iFecha iCosto : ℤ) :
    List PlannedPoint :=
  (rows.drop start).filterMap (fun row =>
    match parseNumber (cellAt row iCosto) with
    | none => none
    | some cost => (toISODate (cellAt row iFecha)).map (fun date => ⟨date, cost⟩))

/-- Shape B extraction: initialise the per-date map from the date
headers, then add every parseable cell under a date column. -/
def shapeBPoints (rows : List (List Cell)) (start : ℕ) (dateCols : List (ℕ × String)) :
    List PlannedPoint :=
  let init := dateCols.foldl (fun m c => mapSet m c.2 0) []
  let sums := (rows.drop start).foldl
    (fun m row =>
      dateCols.foldl
        (fun m c =>
          match parseNumber (row.getD c.1 Cell.empty) with
          | none => m
          | some v => mapSet m c.2 (mapGet m c.2 + v))
        m)
    init
  sums.map (fun e => ⟨e.1, e.2⟩)

/-- `parsePlanned(rows)`: shape A (a "fecha" column and a
"costo"/"cost" column) or shape B (at least 3 date-shaped headers), both
funnelled into `aggregateCurve`; hard failures return an empty curve
plus a warning. -/
def parsePlanned (rows : List (List Cell)) : PlannedParse :=
  if rows.length = 0 then ⟨[], ["Hoja vacía."]⟩
  else
    let headerIdx := findHeaderRow rows
    let headerRow := if 0 ≤ headerIdx then rows.getD headerIdx.toNat [] else []
    let header := headerRow.map (fun h => trimS h.toStr)
    let lower := header.map toLowerS
    let iFecha := jsFindIndex lower (fun h => jsIncludes h "fecha")
    let iCosto := jsFindIndex lower (fun h => jsIncludes h "costo" || jsIncludes h "cost")
    let start := (headerIdx + 1).toNat
    if iFecha ≥ 0 ∧ iCosto ≥ 0 then
      let points := shapeAPoints rows start iFecha iCosto
      let curve := aggregateCurve points
      let warnings :=
        if curve.length ≠ 0 then [s!"Programado: {curve.length} punto(s) de curva cargados."]
        else []
      ⟨curve, warnings⟩
    else
      let dateCols := header.enum.filterMap
        (fun p => (toISODate (Cell.str p.2)).map (fun iso => (p.1, iso)))
      if dateCols.length < 3 then
        ⟨[], ["No pude detectar columnas de fecha/costo. Intenta una hoja con columnas 'Fecha' y 'Costo', o una exportación con fechas como encabezados."]⟩
      else
        let points := shapeBPoints rows start dateCols
        let curve := aggregateCurve points
        let warnings :=
          if curve.length ≠ 0 then [s!"Programado: {curve.length} punto(s) de curva cargados."]
          else []
        ⟨curve, warnings⟩

/-! ### Derived definitions and example fixtures -/

/-- The `jsStrLe`-filtered value sum of an association list. -/
def sumUpTo (d : String) (m : List (String × ℚ)) : ℚ :=
  ((m.filter (fun e => jsStrLe e.1 d)).map Prod.snd).sum

/-- The per-date aggregation loop shared by both planned shapes. -/
def byDateFold (m : List (String × ℚ)) (points : List PlannedPoint) :
    List (String × ℚ) :=
  points.foldl (fun m p => mapSet m p.date (mapGet m p.date + p.cost)) m

/-- A leaf budget item: code `1.1.1`, base quantity 10, base price 100. -/
def exItem : BudgetItem :=
  ⟨"1.1.1", "1.1.1", "Concreto", "m3", some 10, some 100, some 1000, "1.1", .ITEM⟩

/-- A project holding `exItem` and the given revisions. -/
def projWithRevs (revs : List Revision) : Project :=
  ⟨⟨"COP"⟩, [], ⟨[exItem], revs⟩, [], ⟨[]⟩⟩

/-- A revision setting only the quantity of `1.1.1` to 12. -/
def revQty12 : Revision := ⟨[⟨"1.1.1", some 12, none⟩]⟩

/-- A revision setting only the unit price of `1.1.1` to 110. -/
def revVu110 : Revision := ⟨[⟨"1.1.1", none, some 110⟩]⟩

/-- The empty project (no items, reports, events, suspensions). -/
def emptyProj : Project := ⟨⟨"COP"⟩, [], ⟨[], []⟩, [], ⟨[]⟩⟩

/-- A project with a single date-less finance event of amount 7. -/
def finProj : Project := ⟨⟨"COP"⟩, [], ⟨[], []⟩, [], ⟨[⟨none, some 7⟩]⟩⟩

/-- An `AIU` row with stored total 50. -/
def exAiuItem : BudgetItem := ⟨"", "", "A.I.U", "", none, none, some 50, "", .AIU⟩

/-- A `SUBTOTAL` row with stored total 1050. -/
def exSubtotalItem : BudgetItem := ⟨"", "", "SUBTOTAL", "", none, none, some 1050, "", .SUBTOTAL⟩

/-- An authoritative `TOTAL` row with stored total 1,000,000. -/
def exTotalItem : BudgetItem := ⟨"", "", "VALOR TOTAL", "", none, none, some 1000000, "", .TOTAL⟩

/-- Project with one `ITEM` (10 × 100), one `AIU` (50) and a `SUBTOTAL`
(1050) alongside. -/
def exSumProj : Project := ⟨⟨"COP"⟩, [], ⟨[exItem, exAiuItem, exSubtotalItem], []⟩, [], ⟨[]⟩⟩

/-- The same project plus an authoritative `TOTAL` row. -/
def exTotalProj : Project :=
  ⟨⟨"COP"⟩, [], ⟨[exItem, exAiuItem, exSubtotalItem, exTotalItem], []⟩, [], ⟨[]⟩⟩

/-- The previous report's quantity map (empty when there is none). -/
def prevMapOf (project : Project) (report : Report) : List (String × ℚ) :=
  match previousReport project report with
  | some prev => prev.qtyAccumByItem
  | none => []

/-- Report A: cutoff 2024-01-31, cumulative quantity 5 on `1.1.1`. -/
def exRepA : Report := ⟨"2024-01-31", [("1.1.1", 5)]⟩

/-- Report B: cutoff 2024-02-29, cumulative quantity 8 on `1.1.1`. -/
def exRepB : Report := ⟨"2024-02-29", [("1.1.1", 8)]⟩

/-- Project with `exItem` (price 100) and reports A then B (stored out
of date order to exercise the sort). -/
def exRepProj : Project :=
  ⟨⟨"COP"⟩, [], ⟨[exItem], []⟩, [exRepB, exRepA], ⟨[]⟩⟩

/-- The trimmed header texts `parsePlanned` works from (its `header`
local). -/
def plannedHeader (rows : List (List Cell)) : List String :=
  (if 0 ≤ findHeaderRow rows then rows.getD (findHeaderRow rows).toNat [] else []).map
    (fun h => trimS h.toStr)

/-- The lower-cased header texts (`parsePlanned`'s `lower` local). -/
def plannedLower (rows : List (List Cell)) : List String :=
  (plannedHeader rows).map toLowerS

/-- The date-shaped header columns (`parsePlanned`'s `dateCols` local). -/
def plannedDateCols (rows : List (List Cell)) : List (ℕ × String) :=
  (plannedHeader rows).enum.filterMap
    (fun p => (toISODate (Cell.str p.2)).map (fun iso => (p.1, iso)))

/-- Shape-A sheet: a header with "Fecha"/"Costo" and three data rows,
two of them on the same date. -/
def exPlannedRows : List (List Cell) :=
  [[.str "Fecha", .str "Costo"], [.str "2024-01-05", .num 100],
   [.str "2024-01-05", .num 50], [.str "2024-02-01", .num 25]]

/-- The raw points shape A extracts from `exPlannedRows`. -/
def exPPts : List PlannedPoint :=
  [⟨"2024-01-05", 100⟩, ⟨"2024-01-05", 50⟩, ⟨"2024-02-01", 25⟩]

/-! ### Supporting lemmas: folds as sums -/

/-- A left fold that only adds equals the initial value plus the sum. -/
theorem foldl_add_sum {α : Type _} {M : Type _} [AddCommMonoid M] (f : α → M) :
    ∀ (l : List α) (acc : M), l.foldl (fun a x => a + f x) acc = acc + (l.map f).sum
  | [], acc => by simp
  | x :: xs, acc => by
    simp only [List.foldl_cons, List.map_cons, List.sum_cons]
    rw [foldl_add_sum f xs (acc + f x), add_assoc]

/-- A guarded three-way additive fold equals the sum of the guarded
per-element contributions. -/
theorem foldl_guard2_add_sum {α : Type _} (p q : α → Bool) (f g : α → ℚ) :
    ∀ (l : List α) (acc : ℚ),
      l.foldl (fun a x => if p x then a + f x else if q x then a + g x else a) acc =
        acc + (l.map fun x => if p x then f x else if q x then g x else 0).sum
  | [], acc => by simp
  | x :: xs, acc => by
    rw [List.foldl_cons, List.map_cons, List.sum_cons]
    by_cases hp : p x = true
    · simp only [hp, if_true]
      rw [foldl_guard2_add_sum p q f g xs]
      ring
    · by_cases hq : q x = true
      · simp only [hp, hq, Bool.false_eq_true, if_true, if_false]
        rw [foldl_guard2_add_sum p q f g xs]
        ring
      · simp only [hp, hq, Bool.false_eq_true, if_false]
        rw [foldl_guard2_add_sum p q f g xs]
        ring

/-- A guarded componentwise-additive fold on pairs equals the pair of
sums of the guarded per-element contributions. -/
theorem foldl_guard_pair_add_sum {α : Type _} (p : α → Bool) (f g : α → ℚ) :
    ∀ (l : List α) (acc : ℚ × ℚ),
      l.foldl (fun (a : ℚ × ℚ) x => if p x then (a.1 + f x, a.2 + g x) else a) acc =
        (acc.1 + (l.map fun x => if p x then f x else 0).sum,
          acc.2 + (l.map fun x => if p x then g x else 0).sum)
  | [], acc => by simp
  | x :: xs, acc => by
    rw [List.foldl_cons, List.map_cons, List.map_cons, List.sum_cons, List.sum_cons]
    by_cases hp : p x = true
    · simp only [hp, if_true]
      rw [foldl_guard_pair_add_sum p f g xs]
      refine Prod.ext ?_ ?_ <;> simp <;> ring
    · simp only [hp, Bool.false_eq_true, if_false]
      rw [foldl_guard_pair_add_sum p f g xs]
      refine Prod.ext ?_ ?_ <;> simp

/-! ### Supporting lemmas: the code-unit string order -/

theorem jsStrLtL_cons_iff (a b : Char) (as bs : List Char) :
    jsStrLtL (a :: as) (b :: bs) = true ↔
      a.toNat < b.toNat ∨ (a.toNat = b.toNat ∧ jsStrLtL as bs = true) := by
  simp only [jsStrLtL]
  by_cases h1 : a.toNat < b.toNat
  · simp [h1]
  · by_cases h2 : b.toNat < a.toNat
    · have hlhs : (if a.toNat < b.toNat then true
          else if b.toNat < a.toNat then false else jsStrLtL as bs) = false := by
        simp [h1, h2]
      rw [hlhs]
      constructor
      · intro hc; exact absurd hc (by simp)
      · intro hc
        exfalso
        rcases hc with hc | ⟨hc, _⟩
        · omega
        · omega
    · have he : a.toNat = b.toNat := by omega
      simp [h1, h2, he]

theorem jsStrLtL_irrefl : ∀ cs : List Char, jsStrLtL cs cs = false
  | [] => rfl
  | c :: cs => by
    simp [jsStrLtL, Nat.lt_irrefl, jsStrLtL_irrefl cs]

theorem jsStrLtL_nil_right : ∀ cs : List Char, jsStrLtL cs [] = false
  | [] => rfl
  | _ :: _ => rfl

theorem jsStrLtL_asymm : ∀ as bs : List Char,
    jsStrLtL as bs = true → jsStrLtL bs as = false
  | [], [] => by simp [jsStrLtL]
  | [], _ :: _ => fun _ => jsStrLtL_nil_right _
  | _ :: _, [] => by simp [jsStrLtL]
  | a :: as, b :: bs => fun h => by
    rw [jsStrLtL_cons_iff] at h
    have IH := jsStrLtL_asymm as bs
    rw [Bool.eq_false_iff]
    intro hc
    rw [jsStrLtL_cons_iff] at hc
    rcases h with h | ⟨he, h⟩ <;> rcases hc with hc | ⟨hce, hc⟩
    · omega
    · omega
    · omega
    · exact absurd (IH h) (by simp [hc])

theorem jsStrLtL_trans : ∀ as bs cs : List Char,
    jsStrLtL as bs = true → jsStrLtL bs cs = true → jsStrLtL as cs = true
  | [], _, [] => fun _ h => by rw [jsStrLtL_nil_right] at h; exact absurd h (by simp)
  | [], _, _ :: _ => fun _ _ => rfl
  | _ :: _, [], _ => fun h _ => by rw [jsStrLtL_nil_right] at h; exact absurd h (by simp)
  | a :: as, b :: bs, [] => fun _ h => by
    rw [jsStrLtL_nil_right] at h; exact absurd h (by simp)
  | a :: as, b :: bs, c :: cs => fun h1 h2 => by
    rw [jsStrLtL_cons_iff] at h1 h2 ⊢
    rcases h1 with h1 | ⟨he1, h1⟩ <;> rcases h2 with h2 | ⟨he2, h2⟩
    · left; omega
    · left; omega
    · left; omega
    · right; exact ⟨by omega, jsStrLtL_trans as bs cs h1 h2⟩

theorem jsStrLtL_connect : ∀ as bs : List Char,
    as ≠ bs → jsStrLtL as bs = true ∨ jsStrLtL bs as = true
  | [], [] => fun h => absurd rfl h
  | [], _ :: _ => fun _ => Or.inl rfl
  | _ :: _, [] => fun _ => Or.inr rfl
  | a :: as, b :: bs => fun h => by
    rcases Nat.lt_trichotomy a.toNat b.toNat with hab | hab | hab
    · left; rw [jsStrLtL_cons_iff]; left; exact hab
    · have hceq : a = b := by
        have h1 := Char.ofNat_toNat a
        have h2 := Char.ofNat_toNat b
        rw [← h1, ← h2, hab]
      have hne : as ≠ bs := fun he => h (by rw [hceq, he])
      rcases jsStrLtL_connect as bs hne with hl | hl
      · left; rw [jsStrLtL_cons_iff]; right; exact ⟨hab, hl⟩
      · right; rw [jsStrLtL_cons_iff]; right; exact ⟨hab.symm, hl⟩
    · right; rw [jsStrLtL_cons_iff]; left; exact hab

theorem jsStrLt_irrefl (s : String) : jsStrLt s s = false := jsStrLtL_irrefl _

theorem jsStrLt_asymm {a b : String} (h : jsStrLt a b = true) : jsStrLt b a = false :=
  jsStrLtL_asymm _ _ h

theorem jsStrLt_trans {a b c : String} (h1 : jsStrLt a b = true)
    (h2 : jsStrLt b c = true) : jsStrLt a c = true :=
  jsStrLtL_trans _ _ _ h1 h2

theorem jsStrLt_connect {a b : String} (h : a ≠ b) :
    jsStrLt a b = true ∨ jsStrLt b a = true := by
  refine jsStrLtL_connect _ _ fun he => h ?_
  cases a; cases b
  exact congrArg String.mk (by simpa [String.toList] using he)

/-- Linearity of the strict order: `a < c` forces `a < b` or `b < c`. -/
theorem jsStrLt_cotrans (b : String) {a c : String} (h : jsStrLt a c = true) :
    jsStrLt a b = true ∨ jsStrLt b c = true := by
  by_cases hbc : b = c
  · subst hbc; exact Or.inl h
  · rcases jsStrLt_connect hbc with hl | hl
    · exact Or.inr hl
    · exact Or.inl (jsStrLt_trans h hl)

/-- The empty string compares `<=` every string. -/
theorem jsStrLe_empty_left (s : String) : jsStrLe "" s = true := by
  simp [jsStrLe, jsStrLt, show ("" : String).toList = [] from rfl, jsStrLtL_nil_right]

/-! ### Supporting lemmas: the stable sort -/

theorem insertSorted_perm (lt : α → α → Bool) (x : α) :
    ∀ l : List α, (insertSorted lt x l).Perm (x :: l)
  | [] => List.Perm.refl _
  | y :: ys => by
    simp only [insertSorted]
    by_cases h : lt y x = true
    · simp only [h, if_true]
      exact ((insertSorted_perm lt x ys).cons y).trans (List.Perm.swap x y ys)
    · simp [h]

theorem stableSort_perm (lt : α → α → Bool) :
    ∀ l : List α, (stableSort lt l).Perm l
  | [] => List.Perm.refl _
  | x :: xs =>
    (insertSorted_perm lt x (stableSort lt xs)).trans ((stableSort_perm lt xs).cons x)

/-- Inserting into a list sorted by `lt` (in the reflexive-complement
sense) preserves sortedness, given asymmetry and linearity of `lt`. -/
theorem pairwise_insertSorted (lt : α → α → Bool)
    (hA : ∀ a b : α, lt a b = true → lt b a = false)
    (hco : ∀ a b c : α, lt a c = true → lt a b = true ∨ lt b c = true) (x : α) :
    ∀ l : List α, l.Pairwise (fun a b => lt b a = false) →
      (insertSorted lt x l).Pairwise (fun a b => lt b a = false)
  | [], _ => List.Pairwise.cons (by simp) List.Pairwise.nil
  | y :: ys, hp => by
    rcases List.pairwise_cons.mp hp with ⟨hy, hys⟩
    simp only [insertSorted]
    by_cases h : lt y x = true
    · simp only [h, if_true]
      refine List.pairwise_cons.mpr ⟨?_, pairwise_insertSorted lt hA hco x ys hys⟩
      intro z hz
      rcases List.mem_cons.mp ((insertSorted_perm lt x ys).mem_iff.mp hz) with hz | hz
      · subst hz; exact hA y z h
      · exact hy z hz
    · simp only [h, if_false]
      refine List.pairwise_cons.mpr ⟨?_, hp⟩
      intro z hz
      rcases List.mem_cons.mp hz with hz | hz
      · subst hz; exact Bool.eq_false_iff.mpr h
      · rw [Bool.eq_false_iff]
        intro hzx
        rcases hco z y x hzx with hc | hc
        · exact absurd hc (by simp [hy z hz])
        · exact absurd hc (by simp [h])

theorem pairwise_stableSort (lt : α → α → Bool)
    (hA : ∀ a b : α, lt a b = true → lt b a = false)
    (hco : ∀ a b c : α, lt a c = true → lt a b = true ∨ lt b c = true) :
    ∀ l : List α, (stableSort lt l).Pairwise (fun a b => lt b a = false)
  | [] => List.Pairwise.nil
  | x :: xs => pairwise_insertSorted lt hA hco x _ (pairwise_stableSort lt hA hco xs)

/-- In a list that is pairwise `R`, the last element is `R`-above every
member (or equal to it). -/
theorem getLast?_is_max {R : α → α → Prop} :
    ∀ {l : List α} {a : α}, l.Pairwise R → l.getLast? = some a → ∀ b ∈ l, b = a ∨ R b a
  | [], a, _, h => by simp at h
  | [x], a, _, h => by
    simp only [List.getLast?_singleton, Option.some_inj] at h
    subst h
    intro b hb
    simp only [List.mem_singleton] at hb
    exact Or.inl hb
  | x :: y :: ys, a, hp, h => by
    rcases List.pairwise_cons.mp hp with ⟨hx, hp2⟩
    have htail : (y :: ys).getLast? = some a := by
      rw [List.getLast?_cons_cons] at h
      exact h
    intro b hb
    rcases List.mem_cons.mp hb with hb | hb
    · subst hb
      have hmem : a ∈ y :: ys := by
        have hg := List.getLast?_eq_getLast (y :: ys) (by simp)
        rw [hg] at htail
        have hm := List.getLast_mem (l := y :: ys) (by simp)
        simpa [Option.some_inj.mp htail] using hm
      exact Or.inr (hx a hmem)
    · exact getLast?_is_max hp2 htail b hb

theorem getLast?_eq_none_iff_nil : ∀ l : List α, l.getLast? = none ↔ l = []
  | [] => by simp
  | [x] => by simp
  | x :: y :: ys => by
    rw [List.getLast?_cons_cons]
    simp [getLast?_eq_none_iff_nil (y :: ys)]

/-! ### Supporting lemmas: insertion-ordered maps and the planned
aggregation -/

theorem mapGet_cons (e : String × ℚ) (rest : List (String × ℚ)) (k : String) :
    mapGet (e :: rest) k = if e.1 = k then e.2 else mapGet rest k := by
  by_cases h : e.1 = k
  · simp [mapGet, List.find?, h]
  · have hb : (e.1 == k) = false := by simp [h]
    simp [mapGet, List.find?, hb, h]

theorem keys_notMem_of_any_eq_false {m : List (String × ℚ)} {k : String}
    (h : m.any (fun e => e.1 == k) = false) : k ∉ m.map Prod.fst := by
  intro hk
  rcases List.mem_map.mp hk with ⟨e, he, hek⟩
  have hT : m.any (fun e => e.1 == k) = true := List.any_eq_true.mpr ⟨e, he, by simp [hek]⟩
  exact absurd hT (by simp [h])

theorem map_replace_eq_self (k : String) (v : ℚ) :
    ∀ rest : List (String × ℚ), (∀ x ∈ rest, x.1 ≠ k) →
      rest.map (fun x => if x.1 == k then (k, v) else x) = rest
  | [], _ => rfl
  | x :: xs, h => by
    have hx : x.1 ≠ k := h x (List.mem_cons_self x xs)
    have hb : (x.1 == k) = false := by simp [hx]
    simp only [List.map_cons, hb, Bool.false_eq_true, if_false]
    rw [map_replace_eq_self k v xs fun y hy => h y (List.mem_cons_of_mem x hy)]

theorem mapSet_cons_of_nodup (e : String × ℚ) (rest : List (String × ℚ)) (k : String)
    (v : ℚ) (hnd : ((e :: rest).map Prod.fst).Nodup) :
    mapSet (e :: rest) k v =
      if e.1 = k then (k, v) :: rest else e :: mapSet rest k v := by
  have hnd2 : (e.1 :: rest.map Prod.fst).Nodup := by simpa using hnd
  rcases List.nodup_cons.mp hnd2 with ⟨hke, hndr⟩
  by_cases h : e.1 = k
  · have hany : (e :: rest).any (fun x => x.1 == k) = true :=
      List.any_eq_true.mpr ⟨e, List.mem_cons_self e rest, by simp [h]⟩
    simp only [mapSet, hany, if_true, h, if_pos rfl, List.map_cons]
    rw [if_pos (by simp)]
    rw [map_replace_eq_self k v rest]
    intro x hx hxe
    exact hke (List.mem_map.mpr ⟨x, hx, by rw [hxe, ← h]⟩)
  · by_cases hany : rest.any (fun x => x.1 == k) = true
    · have hb : (e.1 == k) = false := by simp [h]
      have hany2 : (e :: rest).any (fun x => x.1 == k) = true := by
        simp [List.any_cons, hany]
      simp only [mapSet, hany2, hany, if_true, List.map_cons, hb,
        Bool.false_eq_true, if_false]
      rw [if_neg h]
    · have hanyF : (rest.any fun x => x.1 == k) = false := Bool.eq_false_iff.mpr hany
      have hb : (e.1 == k) = false := by simp [h]
      have hany2 : ((e :: rest).any fun x => x.1 == k) = false := by
        simp [List.any_cons, hb, hanyF]
      simp [mapSet, hany2, hanyF, h]

theorem mapSet_keys_mem (m : List (String × ℚ)) (k : String) (v : ℚ) (x : String) :
    x ∈ (mapSet m k v).map Prod.fst ↔ x ∈ m.map Prod.fst ∨ x = k := by
  by_cases hany : m.any (fun e => e.1 == k) = true
  · have hkeys : (mapSet m k v).map Prod.fst = m.map Prod.fst := by
      simp only [mapSet, hany, if_true]
      rw [List.map_map]
      apply List.map_congr_left
      intro e _
      by_cases h : e.1 = k <;> simp [h]
    rw [hkeys]
    constructor
    · exact Or.inl
    · rintro (hx | rfl)
      · exact hx
      · rcases List.any_eq_true.mp hany with ⟨e, he, hek⟩
        exact List.mem_map.mpr ⟨e, he, by simpa using hek⟩
  · have hmk : (mapSet m k v) = m ++ [(k, v)] := by
      simp [mapSet, Bool.eq_false_iff.mpr hany]
    simp [hmk]

theorem mapSet_keys_nodup {m : List (String × ℚ)} (k : String) (v : ℚ)
    (hnd : (m.map Prod.fst).Nodup) : ((mapSet m k v).map Prod.fst).Nodup := by
  by_cases hany : m.any (fun e => e.1 == k) = true
  · have hkeys : (mapSet m k v).map Prod.fst = m.map Prod.fst := by
      simp only [mapSet, hany, if_true]
      rw [List.map_map]
      apply List.map_congr_left
      intro e _
      by_cases h : e.1 = k <;> simp [h]
    rw [hkeys]; exact hnd
  · have hmk : (mapSet m k v) = m ++ [(k, v)] := by
      simp [mapSet, Bool.eq_false_iff.mpr hany]
    rw [hmk, List.map_append]
    simp only [List.map_cons, List.map_nil]
    rw [List.nodup_append]
    refine ⟨hnd, List.nodup_singleton _, ?_⟩
    intro x hx
    simp only [List.mem_singleton]
    intro he
    subst he
    exact keys_notMem_of_any_eq_false (Bool.eq_false_iff.mpr hany) hx

theorem sumUpTo_nil (d : String) : sumUpTo d [] = 0 := rfl

theorem sumUpTo_cons (d : String) (e : String × ℚ) (m : List (String × ℚ)) :
    sumUpTo d (e :: m) = (if jsStrLe e.1 d = true then e.2 else 0) + sumUpTo d m := by
  by_cases h : jsStrLe e.1 d = true
  · simp [sumUpTo, List.filter_cons, h]
  · have hf : jsStrLe e.1 d = false := Bool.eq_false_iff.mpr h
    simp [sumUpTo, List.filter_cons, hf, h]

theorem sumUpTo_append (d : String) (m1 m2 : List (String × ℚ)) :
    sumUpTo d (m1 ++ m2) = sumUpTo d m1 + sumUpTo d m2 := by
  simp [sumUpTo, List.filter_append]

/-- Updating one key of a duplicate-free map adds the increment to the
filtered sum exactly when the key passes the filter. -/
theorem sumUpTo_mapSet (d k : String) (v : ℚ) :
    ∀ m : List (String × ℚ), (m.map Prod.fst).Nodup →
      sumUpTo d (mapSet m k (mapGet m k + v)) =
        sumUpTo d m + (if jsStrLe k d = true then v else 0)
  | [], _ => by
    rw [show mapSet [] k (mapGet [] k + v) = [(k, mapGet [] k + v)] from rfl]
    rw [sumUpTo_cons, sumUpTo_nil,
      show mapGet ([] : List (String × ℚ)) k = 0 from rfl]
    by_cases h : jsStrLe k d = true <;> simp [h]
  | e :: rest, hnd => by
    have hnd2 : (e.1 :: rest.map Prod.fst).Nodup := by simpa using hnd
    rcases List.nodup_cons.mp hnd2 with ⟨hke, hndr⟩
    rw [mapSet_cons_of_nodup e rest k _ hnd, mapGet_cons]
    by_cases h : e.1 = k
    · subst h
      rw [if_pos rfl, if_pos rfl, sumUpTo_cons, sumUpTo_cons]
      by_cases hle : jsStrLe e.1 d = true <;> simp [hle] <;> ring
    · rw [if_neg h, if_neg h, sumUpTo_cons, sumUpTo_cons,
        sumUpTo_mapSet d k v rest hndr]
      ring

theorem byDateFold_nodup :
    ∀ (points : List PlannedPoint) (m : List (String × ℚ)),
      (m.map Prod.fst).Nodup → ((byDateFold m points).map Prod.fst).Nodup
  | [], m, h => h
  | p :: ps, m, h =>
    byDateFold_nodup ps _ (mapSet_keys_nodup _ _ h)

theorem byDateFold_keys_mem :
    ∀ (points : List PlannedPoint) (m : List (String × ℚ)) (x : String),
      x ∈ (byDateFold m points).map Prod.fst ↔
        x ∈ m.map Prod.fst ∨ x ∈ points.map PlannedPoint.date
  | [], m, x => by simp [byDateFold]
  | p :: ps, m, x => by
    rw [show byDateFold m (p :: ps) = byDateFold (mapSet m p.date (mapGet m p.date + p.cost)) ps
      from rfl]
    rw [byDateFold_keys_mem ps _ x, mapSet_keys_mem]
    simp only [List.map_cons, List.mem_cons]
    tauto

theorem byDateFold_sumUpTo (d : String) :
    ∀ (points : List PlannedPoint) (m : List (String × ℚ)),
      (m.map Prod.fst).Nodup →
      sumUpTo d (byDateFold m points) =
        sumUpTo d m +
          ((points.filter (fun p => jsStrLe p.date d)).map PlannedPoint.cost).sum
  | [], m, h => by simp [byDateFold]
  | p :: ps, m, h => by
    rw [show byDateFold m (p :: ps) = byDateFold (mapSet m p.date (mapGet m p.date + p.cost)) ps
      from rfl]
    rw [byDateFold_sumUpTo d ps _ (mapSet_keys_nodup _ _ h), sumUpTo_mapSet d _ _ m h]
    by_cases hle : jsStrLe p.date d = true
    · simp only [List.filter_cons, hle, if_true, List.map_cons, List.sum_cons]
      ring
    · have hf : jsStrLe p.date d = false := Bool.eq_false_iff.mpr hle
      simp only [List.filter_cons, hf, Bool.false_eq_true, if_false, hle]
      ring

theorem cumulate_map_date :
    ∀ (l : List (String × ℚ)) (acc : ℚ),
      (cumulate acc l).map CurvePoint.date = l.map Prod.fst
  | [], _ => rfl
  | (d, c) :: rest, acc => by
    simp only [cumulate, List.map_cons]
    rw [cumulate_map_date rest (acc + c)]

/-- Each point of the running cumulative sum over a strictly
key-sorted list carries the sum of all values at keys `<=` its own. -/
theorem cumulate_mem_eq_sumUpTo :
    ∀ (l : List (String × ℚ)) (acc : ℚ),
      l.Pairwise (fun a b => jsStrLt a.1 b.1 = true) →
      ∀ pt ∈ cumulate acc l,
        pt.plannedCostAccum = acc + sumUpTo pt.date l ∧ pt.date ∈ l.map Prod.fst
  | [], _, _, pt, h => by simp [cumulate] at h
  | (d, c) :: rest, acc, hp, pt, h => by
    rcases List.pairwise_cons.mp hp with ⟨hd, hp2⟩
    rcases List.mem_cons.mp h with h | h
    · subst h
      constructor
      · rw [sumUpTo_cons]
        have hdd : jsStrLe d d = true := by
          simp [jsStrLe, jsStrLt_irrefl]
        rw [if_pos hdd]
        have hrest : sumUpTo d rest = 0 := by
          have : rest.filter (fun e => jsStrLe e.1 d) = [] := by
            rw [List.filter_eq_nil]
            intro e he
            have hlt := hd e he
            simp [jsStrLe, hlt]
          simp [sumUpTo, this]
        rw [hrest]
        ring
      · simp
    · have IH := cumulate_mem_eq_sumUpTo rest (acc + c) hp2 pt h
      rcases IH with ⟨hacc, hmem⟩
      constructor
      · rw [hacc, sumUpTo_cons]
        have hdp : jsStrLt d pt.date = true := by
          rcases List.mem_map.mp hmem with ⟨e, he, hed⟩
          have := hd e he
          rw [← hed]
          exact this
        have hledp : jsStrLe d pt.date = true := by
          simp [jsStrLe, jsStrLt_asymm hdp]
        rw [if_pos hledp]
        ring
      · simp [hmem]

/-- Full characterisation of `aggregateCurve`: its dates are the
distinct input dates in strictly ascending order, and each point's value
is the total cost of all input points dated on or before it. -/
theorem aggregateCurve_spec (points : List PlannedPoint) :
    ((aggregateCurve points).map CurvePoint.date).Pairwise (fun a b => jsStrLt a b = true) ∧
    (∀ pt ∈ aggregateCurve points,
      pt.plannedCostAccum =
        ((points.filter (fun p => jsStrLe p.date pt.date)).map PlannedPoint.cost).sum ∧
      pt.date ∈ points.map PlannedPoint.date) ∧
    (∀ p ∈ points, p.date ∈ (aggregateCurve points).map CurvePoint.date) := by
  have hLt := fun (a b : String × ℚ) (h : jsStrLt a.1 b.1 = true) => jsStrLt_asymm h
  have hCo := fun (a b c : String × ℚ) (h : jsStrLt a.1 c.1 = true) => jsStrLt_cotrans b.1 h
  set byDate := byDateFold [] points with hbd
  have hbyDate : points.foldl (fun m p => mapSet m p.date (mapGet m p.date + p.cost)) [] =
      byDate := rfl
  set sorted := stableSort (fun a b => jsStrLt a.1 b.1) byDate with hs
  have hperm : sorted.Perm byDate := stableSort_perm _ _
  have hnodup : (byDate.map Prod.fst).Nodup := byDateFold_nodup points [] (by simp)
  have hnodupS : (sorted.map Prod.fst).Nodup := ((hperm.map Prod.fst).nodup_iff).mpr hnodup
  have hpairLe : sorted.Pairwise (fun a b => jsStrLt b.1 a.1 = false) :=
    pairwise_stableSort _ hLt hCo byDate
  have hpairNe : sorted.Pairwise (fun a b => a.1 ≠ b.1) :=
    (List.pairwise_map.mp hnodupS)
  have hpairLt : sorted.Pairwise (fun a b => jsStrLt a.1 b.1 = true) := by
    have hand := hpairLe.and hpairNe
    refine hand.imp ?_
    rintro a b ⟨h1, h2⟩
    rcases jsStrLt_connect h2 with h | h
    · exact h
    · exact absurd h (by simp [h1])
  have hunfold : aggregateCurve points = cumulate 0 sorted := by
    rw [aggregateCurve, hbyDate, hs]
  refine ⟨?_, ?_, ?_⟩
  · rw [hunfold, cumulate_map_date]
    exact List.pairwise_map.mpr hpairLt
  · intro pt hpt
    rw [hunfold] at hpt
    rcases cumulate_mem_eq_sumUpTo sorted 0 hpairLt pt hpt with ⟨hacc, hmem⟩
    constructor
    · rw [hacc, zero_add]
      have hsum : sumUpTo pt.date sorted = sumUpTo pt.date byDate := by
        unfold sumUpTo
        exact ((hperm.filter _).map Prod.snd).sum_eq
      rw [hsum, hbd, byDateFold_sumUpTo pt.date points [] (by simp), sumUpTo_nil, zero_add]
    · have : pt.date ∈ byDate.map Prod.fst := (hperm.map Prod.fst).mem_iff.mp hmem
      rcases (byDateFold_keys_mem points [] pt.date).mp this with hc | hc
      · simp at hc
      · exact hc
  · intro p hp
    rw [hunfold, cumulate_map_date]
    have : p.date ∈ byDate.map Prod.fst := by
      rw [hbd]
      exact (byDateFold_keys_mem points [] p.date).mpr
        (Or.inr (List.mem_map.mpr ⟨p, hp, rfl⟩))
    exact (hperm.map Prod.fst).mem_iff.mpr this

/-! ### Claim C3 -/

/-- Claim C3: `effectiveValue` is a left-to-right fold over the revision
list starting from the item's base quantity and unit price, in which each
matching `Change` overwrites only the fields it explicitly sets, and the
returned total equals final quantity times final unit price: (1) the
total always equals quantity times price; (2) two revisions setting
disjoint fields (qty to `q`, price to `v`) give `{q, v, q*v}` in either
order; (3) when two revisions both set the quantity, the later one in
list order wins; (4) concretely, base `{qty 10, price 100}` under
`[R1 qty→12, R2 price→110]` and `[R2, R1]` both give
`{qty 12, price 110, total 1320}`. -/
theorem budgetEffectiveItem_overlay :
    (∀ (item : BudgetItem) (project : Project),
      (budgetEffectiveItem item project).vt =
        (budgetEffectiveItem item project).qty * (budgetEffectiveItem item project).vu) ∧
    (∀ (pr : Project) (item : BudgetItem) (q v : ℚ),
      budgetEffectiveItem item
          { pr with budget := { pr.budget with revisions :=
              [⟨[⟨item.codeNorm, some q, none⟩]⟩, ⟨[⟨item.codeNorm, none, some v⟩]⟩] } } =
        ⟨q, v, q * v⟩ ∧
      budgetEffectiveItem item
          { pr with budget := { pr.budget with revisions :=
              [⟨[⟨item.codeNorm, none, some v⟩]⟩, ⟨[⟨item.codeNorm, some q, none⟩]⟩] } } =
        ⟨q, v, q * v⟩) ∧
    (∀ (pr : Project) (item : BudgetItem) (q1 q2 : ℚ),
      (budgetEffectiveItem item
          { pr with budget := { pr.budget with revisions :=
              [⟨[⟨item.codeNorm, some q1, none⟩]⟩,
               ⟨[⟨item.codeNorm, some q2, none⟩]⟩] } }).qty = q2) ∧
    (budgetEffectiveItem exItem (projWithRevs [revQty12, revVu110]) = ⟨12, 110, 1320⟩ ∧
      budgetEffectiveItem exItem (projWithRevs [revVu110, revQty12]) = ⟨12, 110, 1320⟩) := by
  refine ⟨?_, ?_, ?_, ?_, ?_⟩
  · intro item project
    rfl
  · intro pr item q v
    constructor <;> simp [budgetEffectiveItem, List.foldl, List.find?]
  · intro pr item q1 q2
    simp [budgetEffectiveItem, List.foldl, List.find?]
  · simp [budgetEffectiveItem, exItem, projWithRevs, revQty12, revVu110,
      List.foldl, List.find?]
    norm_num
  · simp [budgetEffectiveItem, exItem, projWithRevs, revQty12, revVu110,
      List.foldl, List.find?]
    norm_num

/-! ### Claim C4 (corrected) -/

/-- Claim C4 counterexample: with the round-to-nearest-thousand sentinel,
rounding 1,249,999 does NOT yield 1,249,000 as the claim states. -/
theorem roundByDecimals_sentinel_counterexample :
    roundByDecimals (some 1249999) (-3) ≠ some 1249000 := by
  simp [roundByDecimals, jsRound]
  norm_num

/-- Claim C4 amended: with the round-to-nearest-thousand sentinel,
rounding 1,249,999 yields 1,250,000 (`Math.round` rounds 1249.999 up to
1250 thousands). -/
theorem roundByDecimals_sentinel_amended :
    roundByDecimals (some 1249999) (-3) = some 1250000 := by
  simp [roundByDecimals, jsRound]
  norm_num

/-! ### Claim C9 -/

/-- The loop of `shiftDateBySuspensions` as a sum. -/
theorem suspensionExtraDays_eq_sum (d : ℤ) :
    ∀ (ss : List Suspension) (acc : ℤ),
      ss.foldl
        (fun acc s =>
          match s.fromDate, s.toDate with
          | some a, some b => if b ≤ d then acc + (b - a + 1) else acc
          | _, _ => acc) acc =
      acc + (ss.filterMap (fun s =>
        match s.fromDate, s.toDate with
        | some a, some b => if b ≤ d then some (b - a + 1) else none
        | _, _ => none)).sum
  | [], acc => by simp
  | s :: ss, acc => by
    rcases s with ⟨sf, st⟩
    rcases sf with _ | a <;> rcases st with _ | b
    · simpa [List.foldl_cons, List.filterMap_cons] using suspensionExtraDays_eq_sum d ss acc
    · simpa [List.foldl_cons, List.filterMap_cons] using suspensionExtraDays_eq_sum d ss acc
    · simpa [List.foldl_cons, List.filterMap_cons] using suspensionExtraDays_eq_sum d ss acc
    · by_cases hb : b ≤ d
      · simp only [List.foldl_cons, List.filterMap_cons, hb, if_true, if_pos hb]
        rw [suspensionExtraDays_eq_sum d ss (acc + (b - a + 1))]
        simp [add_assoc]
      · simp only [List.foldl_cons, List.filterMap_cons, hb, if_false, if_neg hb]
        rw [suspensionExtraDays_eq_sum d ss acc]

/-- Claim C9: `shift(date, project)` moves the date forward by exactly
the sum of the inclusive day lengths (`to - from + 1`) of the suspension
intervals whose end falls on or before the date; intervals ending after
the date (or with a missing endpoint) contribute nothing. -/
theorem shiftDateBySuspensions_spec (d : ℤ) (project : Project) :
    shiftDateBySuspensions d project =
      d + (project.suspensions.filterMap (fun s =>
        match s.fromDate, s.toDate with
        | some a, some b => if b ≤ d then some (b - a + 1) else none
        | _, _ => none)).sum := by
  rw [shiftDateBySuspensions, suspensionExtraDays]
  rw [suspensionExtraDays_eq_sum d project.suspensions 0, zero_add]

/-! ### Claim C5 -/

/-- Claim C5: whenever the (`|| 0`-coalesced) contract value is `≤ 0` —
including a zero and an unset (`null`) value — both `executedPercent`
and `financePercent` return no numeric result (`null`) instead of
dividing; being total functions into `Option ℚ`, they can never raise a
divide-by-zero fault. -/
theorem percent_undefined_on_nonpositive_contract
    (project : Project) (settings : Settings) (report : Report) (cutoff : Option String)
    (h : jsOrZero (contractValue project settings).value ≤ 0) :
    computeExecutedPct project settings report = none ∧
    computeFinancePct project settings cutoff = none := by
  constructor
  · rw [computeExecutedPct]
    simp only [if_pos h]
  · rw [computeFinancePct]
    simp only [if_pos h]

/-- Witness for C5: the empty project has contract value 0, so both
percentages are `null` at any report and cutoff. -/
theorem percent_undefined_witness :
    computeExecutedPct emptyProj defaultSettings ⟨"", []⟩ = none ∧
    computeFinancePct emptyProj defaultSettings none = none := by
  refine percent_undefined_on_nonpositive_contract emptyProj defaultSettings ⟨"", []⟩ none ?_
  have hcv : contractValue emptyProj defaultSettings = ⟨some 0, "COP"⟩ := by
    simp [contractValue, emptyProj, currencyOf, List.find?, roundByDecimals,
      jsRound, zpow10, pow10, defaultSettings]
    norm_num
  rw [hcv]
  simp [jsOrZero]

/-! ### Claim C10 -/

/-- Claim C10 (implicit): `financeAccumUpTo` sums exactly the events
whose (`|| ""`-coalesced) date string compares `<=` the
(`|| "9999-12-31"`-coalesced) cutoff string; an event with a missing or
empty date is treated as the empty string, which compares `<=` every
cutoff, so a date-less event passes the filter — and is therefore
counted in the accumulated disbursement (hence in `financePercent`) —
for every cutoff date. -/
theorem financeAccumUpTo_dateless_spec :
    (∀ (project : Project) (settings : Settings) (cutoffDate : Option String),
      financeAccumUpTo project settings cutoffDate =
        roundByDecimals
          (some (((project.finance.events.filter
              (fun e => jsStrLe (jsOrS e.date "") (jsOrS cutoffDate "9999-12-31"))).map
            (fun e => e.amount.getD 0)).sum))
          settings.moneyDecimals) ∧
    (∀ (e : FinanceEvent) (cutoffDate : Option String),
      e.date = none ∨ e.date = some "" →
      jsStrLe (jsOrS e.date "") (jsOrS cutoffDate "9999-12-31") = true) ∧
    (∀ (project : Project) (cutoffDate : Option String) (e : FinanceEvent),
      e ∈ project.finance.events →
      e.date = none ∨ e.date = some "" →
      e ∈ project.finance.events.filter
        (fun e => jsStrLe (jsOrS e.date "") (jsOrS cutoffDate "9999-12-31"))) := by
  have hdl : ∀ (e : FinanceEvent) (cutoffDate : Option String),
      e.date = none ∨ e.date = some "" →
      jsStrLe (jsOrS e.date "") (jsOrS cutoffDate "9999-12-31") = true := by
    intro e c h
    have he : jsOrS e.date "" = "" := by
      rcases h with h | h <;> simp [jsOrS, h]
    rw [he]
    exact jsStrLe_empty_left _
  refine ⟨?_, hdl, ?_⟩
  · intro p st c
    rw [financeAccumUpTo]
    rw [foldl_add_sum (fun e : FinanceEvent => e.amount.getD 0) _ 0, zero_add]
  · intro p c e he h
    exact List.mem_filter.mpr ⟨he, hdl e c h⟩

/-- Witness for C10: the date-less event of amount 7 passes the filter
and is counted even for a cutoff far in the past. -/
theorem financeAccumUpTo_dateless_witness :
    jsStrLe (jsOrS (none : Option String) "") (jsOrS (some "2020-01-01") "9999-12-31") = true ∧
    (⟨none, some 7⟩ : FinanceEvent) ∈ finProj.finance.events.filter
      (fun e => jsStrLe (jsOrS e.date "") (jsOrS (some "2020-01-01") "9999-12-31")) ∧
    financeAccumUpTo finProj defaultSettings (some "2020-01-01") = some 7 := by
  refine ⟨financeAccumUpTo_dateless_spec.2.1 ⟨none, some 7⟩ (some "2020-01-01") (Or.inl rfl),
    financeAccumUpTo_dateless_spec.2.2 finProj (some "2020-01-01") ⟨none, some 7⟩
      (by simp [finProj]) (Or.inl rfl), ?_⟩
  rw [financeAccumUpTo_dateless_spec.1 finProj defaultSettings (some "2020-01-01")]
  have hle : jsStrLe (jsOrS (none : Option String) "") (jsOrS (some "2020-01-01") "9999-12-31") =
      true := by decide
  simp [finProj, defaultSettings, List.filter, hle, roundByDecimals, jsRound, zpow10, pow10]
  norm_num

/-! ### Claims C1 and C2 -/

theorem mem_of_getLast?_eq_some {α : Type _} :
    ∀ {l : List α} {a : α}, l.getLast? = some a → a ∈ l
  | [], a, h => by simp at h
  | [x], a, h => by
    simp only [List.getLast?_singleton, Option.some_inj] at h
    simp [h]
  | x :: y :: ys, a, h => by
    rw [List.getLast?_cons_cons] at h
    exact List.mem_cons_of_mem x (mem_of_getLast?_eq_some h)

/-- Claim C1: when some `TOTAL` row with "valor total" in its description
carries a finite stored total, `contractValue` returns that row's total
rounded per the money precision, ignoring all other items; otherwise it
returns the rounded sum of effective `qty × price` over `ITEM` rows plus
the stored totals of `AIU` and `LUMP` rows, with `SUBTOTAL`, `CAP`,
`SUB`, `TEXT` and `TOTAL` rows contributing nothing — concretely, an
`ITEM` of 1000 and an `AIU` of 50 with a `SUBTOTAL` of 1050 alongside
give 1050, not 2100. -/
theorem contractValue_spec :
    (∀ (project : Project) (settings : Settings) (it : BudgetItem),
      project.budget.items.find? isAuthoritativeTotal = some it →
      contractValue project settings =
        ⟨roundByDecimals it.vtContract settings.moneyDecimals, currencyOf project⟩) ∧
    (∀ (project : Project) (settings : Settings),
      project.budget.items.find? isAuthoritativeTotal = none →
      contractValue project settings =
        ⟨roundByDecimals
          (some ((project.budget.items.map (fun it =>
            if it.type == RowType.ITEM then
              (budgetEffectiveItem it project).qty * (budgetEffectiveItem it project).vu
            else if it.type == RowType.AIU || it.type == RowType.LUMP then
              it.vtContract.getD 0
            else 0)).sum))
          settings.moneyDecimals, currencyOf project⟩) ∧
    contractValue exSumProj defaultSettings = ⟨some 1050, "COP"⟩ := by
  refine ⟨?_, ?_, ?_⟩
  · intro project settings it h
    rw [contractValue, h]
  · intro project settings h
    rw [contractValue, h]
    rw [foldl_guard2_add_sum
      (fun it : BudgetItem => it.type == RowType.ITEM)
      (fun it : BudgetItem => it.type == RowType.AIU || it.type == RowType.LUMP)
      (fun it : BudgetItem =>
        (budgetEffectiveItem it project).qty * (budgetEffectiveItem it project).vu)
      (fun it : BudgetItem => it.vtContract.getD 0)
      project.budget.items 0, zero_add]
  · have h : exSumProj.budget.items.find? isAuthoritativeTotal = none := by decide
    rw [contractValue, h]
    simp [exSumProj, exItem, exAiuItem, exSubtotalItem, budgetEffectiveItem,
      currencyOf, roundByDecimals, jsRound, zpow10, pow10, defaultSettings,
      List.foldl, List.find?]
    norm_num

/-- Witness for C1: the short-circuit fires on the project with the
authoritative `TOTAL` row (value 1,000,000 regardless of the sum), and
the fallback sum on the project without one gives 1050. -/
theorem contractValue_spec_witness :
    contractValue exTotalProj defaultSettings = ⟨some 1000000, "COP"⟩ ∧
    contractValue exSumProj defaultSettings = ⟨some 1050, "COP"⟩ := by
  constructor
  · have h : exTotalProj.budget.items.find? isAuthoritativeTotal = some exTotalItem := by
      decide
    rw [contractValue_spec.1 exTotalProj defaultSettings exTotalItem h]
    simp [exTotalItem, exTotalProj, currencyOf, roundByDecimals, jsRound, zpow10,
      pow10, defaultSettings]
    norm_num
  · have h : exSumProj.budget.items.find? isAuthoritativeTotal = none := by decide
    rw [contractValue_spec.2.1 exSumProj defaultSettings h]
    simp [exSumProj, exItem, exAiuItem, exSubtotalItem, budgetEffectiveItem,
      currencyOf, roundByDecimals, jsRound, zpow10, pow10, defaultSettings,
      List.find?]
    norm_num

/-- Claim C2: `executedValues` takes `prev` = the report with the latest
cutoff strictly before this report's cutoff (or none); for each `ITEM`
with `accumQty` = this report's stored quantity (0 when absent) and
`prevQty` = prev's stored quantity (0 when absent or no prev),
accumulated value sums `accumQty × effective price` and period value
sums `(accumQty − prevQty) × effective price`; concretely an item priced
100 with prev accumulation 5 and current 8 contributes 800 and 300. -/
theorem computeExecutedValues_spec :
    (∀ (project : Project) (report : Report) (r : Report),
      previousReport project report = some r →
      r ∈ project.reports ∧ jsStrLt r.cutoffDate report.cutoffDate = true ∧
      ∀ r2 ∈ project.reports, jsStrLt r2.cutoffDate report.cutoffDate = true →
        jsStrLe r2.cutoffDate r.cutoffDate = true) ∧
    (∀ (project : Project) (report : Report),
      previousReport project report = none →
      ∀ r2 ∈ project.reports, jsStrLt r2.cutoffDate report.cutoffDate = false) ∧
    (∀ (project : Project) (settings : Settings) (report : Report),
      computeExecutedValues project settings report =
        { accumVal := roundByDecimals (some ((project.budget.items.map (fun it =>
            if it.type == RowType.ITEM then
              lookupQty report.qtyAccumByItem it.codeNorm * (budgetEffectiveItem it project).vu
            else 0)).sum)) settings.moneyDecimals,
          periodVal := roundByDecimals (some ((project.budget.items.map (fun it =>
            if it.type == RowType.ITEM then
              (lookupQty report.qtyAccumByItem it.codeNorm -
                lookupQty (prevMapOf project report) it.codeNorm) *
                (budgetEffectiveItem it project).vu
            else 0)).sum)) settings.moneyDecimals,
          currency := currencyOf project }) ∧
    computeExecutedValues exRepProj defaultSettings exRepB = ⟨some 800, some 300, "COP"⟩ := by
  have hA : ∀ a b : Report, jsStrLt a.cutoffDate b.cutoffDate = true →
      jsStrLt b.cutoffDate a.cutoffDate = false := fun a b h => jsStrLt_asymm h
  have hCo : ∀ a b c : Report, jsStrLt a.cutoffDate c.cutoffDate = true →
      jsStrLt a.cutoffDate b.cutoffDate = true ∨ jsStrLt b.cutoffDate c.cutoffDate = true :=
    fun a b c h => jsStrLt_cotrans b.cutoffDate h
  refine ⟨?_, ?_, ?_, ?_⟩
  · intro project report r h
    rw [previousReport] at h
    have hperm := stableSort_perm (fun a b : Report => jsStrLt a.cutoffDate b.cutoffDate)
      (project.reports.filter (fun x => jsStrLt x.cutoffDate report.cutoffDate))
    have hmemS := mem_of_getLast?_eq_some h
    have hmemF := hperm.mem_iff.mp hmemS
    rcases List.mem_filter.mp hmemF with ⟨hmem, hpred⟩
    refine ⟨hmem, hpred, ?_⟩
    intro r2 hr2 hr2lt
    have hr2F : r2 ∈ project.reports.filter
        (fun x => jsStrLt x.cutoffDate report.cutoffDate) :=
      List.mem_filter.mpr ⟨hr2, hr2lt⟩
    have hr2S := hperm.mem_iff.mpr hr2F
    have hpw := pairwise_stableSort (fun a b : Report => jsStrLt a.cutoffDate b.cutoffDate)
      hA hCo (project.reports.filter (fun x => jsStrLt x.cutoffDate report.cutoffDate))
    rcases getLast?_is_max hpw h r2 hr2S with he | hlt
    · subst he
      simp [jsStrLe, jsStrLt_irrefl]
    · simp [jsStrLe, hlt]
  · intro project report h
    rw [previousReport] at h
    have hnil := (getLast?_eq_none_iff_nil _).mp h
    have hperm := stableSort_perm (fun a b : Report => jsStrLt a.cutoffDate b.cutoffDate)
      (project.reports.filter (fun x => jsStrLt x.cutoffDate report.cutoffDate))
    rw [hnil] at hperm
    have hfe : project.reports.filter
        (fun x => jsStrLt x.cutoffDate report.cutoffDate) = [] :=
      hperm.symm.eq_nil
    intro r2 hr2
    rw [Bool.eq_false_iff]
    intro ht
    have hmem : r2 ∈ project.reports.filter
        (fun x => jsStrLt x.cutoffDate report.cutoffDate) :=
      List.mem_filter.mpr ⟨hr2, ht⟩
    rw [hfe] at hmem
    simp at hmem
  · intro project settings report
    rw [computeExecutedValues]
    rw [show (match previousReport project report with
        | some prev => prev.qtyAccumByItem
        | none => []) = prevMapOf project report from rfl]
    rw [foldl_guard_pair_add_sum
      (fun it : BudgetItem => it.type == RowType.ITEM)
      (fun it : BudgetItem =>
        lookupQty report.qtyAccumByItem it.codeNorm * (budgetEffectiveItem it project).vu)
      (fun it : BudgetItem =>
        (lookupQty report.qtyAccumByItem it.codeNorm -
          lookupQty (prevMapOf project report) it.codeNorm) *
          (budgetEffectiveItem it project).vu)
      project.budget.items (0, 0)]
    simp
  · have hprev : previousReport exRepProj exRepB = some exRepA := by decide
    rw [computeExecutedValues]
    rw [show (match previousReport exRepProj exRepB with
        | some prev => prev.qtyAccumByItem
        | none => []) = exRepA.qtyAccumByItem from by rw [hprev]]
    simp [exRepProj, exRepA, exRepB, exItem, lookupQty, budgetEffectiveItem,
      currencyOf, roundByDecimals, jsRound, zpow10, pow10, defaultSettings,
      List.foldl, List.find?]
    norm_num

/-- Witness for C2: on the concrete project, the previous report of B is
A (latest cutoff strictly before B's), and a report with no earlier
cutoff has no previous report. -/
theorem computeExecutedValues_spec_witness :
    (exRepA ∈ exRepProj.reports ∧
      jsStrLt exRepA.cutoffDate exRepB.cutoffDate = true ∧
      ∀ r2 ∈ exRepProj.reports, jsStrLt r2.cutoffDate exRepB.cutoffDate = true →
        jsStrLe r2.cutoffDate exRepA.cutoffDate = true) ∧
    (∀ r2 ∈ exRepProj.reports, jsStrLt r2.cutoffDate exRepA.cutoffDate = false) := by
  constructor
  · exact computeExecutedValues_spec.1 exRepProj exRepB exRepA (by decide)
  · exact computeExecutedValues_spec.2.1 exRepProj exRepA (by decide)

/-! ### Claim C8 -/

/-- Claim C8: the numeric parser is a total function into `Option ℚ`
(never throws): finite numeric input passes through, non-finite numeric
input and `null` give `null`; blank text gives `null`; for text with
both "." and "," the dots are dropped (thousands separators) and the
comma becomes the decimal point ("1.234,56" = 1234.56); with only a
comma, the comma becomes the decimal point ("1234,56" = 1234.56);
otherwise the text is parsed as-is ("1.234" = 1.234); unparseable text
gives `null`. -/
theorem parseNumber_spec :
    (∀ q : ℚ, parseNumber (Cell.num q) = some q) ∧
    parseNumber Cell.nan = none ∧
    parseNumber Cell.empty = none ∧
    (∀ s : String, trimL s.toList = [] → parseNumber (Cell.str s) = none) ∧
    parseNumber (Cell.str "1.234,56") = some 1234.56 ∧
    parseNumber (Cell.str "1234,56") = some 1234.56 ∧
    parseNumber (Cell.str "1.234") = some 1.234 ∧
    parseNumber (Cell.str "abc") = none := by
  refine ⟨fun q => rfl, rfl, rfl, ?_, ?_, ?_, ?_, by decide⟩
  · intro s h
    rw [parseNumber, h]
    rfl
  · have h : scanNumLit (trimL (replaceFirstCommaDot (dropDots (trimL "1.234,56".toList)))) =
        some ⟨false, 1234, 56, 2, 0⟩ := by decide
    calc parseNumber (Cell.str "1.234,56")
        = (scanNumLit (trimL (replaceFirstCommaDot (dropDots (trimL "1.234,56".toList))))).map
            NumLit.toRat := rfl
      _ = some (NumLit.toRat ⟨false, 1234, 56, 2, 0⟩) := by rw [h]; rfl
      _ = some 1234.56 := by
          simp [NumLit.toRat, zpow10, pow10]
          norm_num
  · have h : scanNumLit (trimL (replaceFirstCommaDot (trimL "1234,56".toList))) =
        some ⟨false, 1234, 56, 2, 0⟩ := by decide
    calc parseNumber (Cell.str "1234,56")
        = (scanNumLit (trimL (replaceFirstCommaDot (trimL "1234,56".toList)))).map
            NumLit.toRat := rfl
      _ = some (NumLit.toRat ⟨false, 1234, 56, 2, 0⟩) := by rw [h]; rfl
      _ = some 1234.56 := by
          simp [NumLit.toRat, zpow10, pow10]
          norm_num
  · have h : scanNumLit (trimL (trimL "1.234".toList)) = some ⟨false, 1, 234, 3, 0⟩ := by
      decide
    calc parseNumber (Cell.str "1.234")
        = (scanNumLit (trimL (trimL "1.234".toList))).map NumLit.toRat := rfl
      _ = some (NumLit.toRat ⟨false, 1, 234, 3, 0⟩) := by rw [h]; rfl
      _ = some 1.234 := by
          simp [NumLit.toRat, zpow10, pow10]
          norm_num

/-- Witness for C8: whitespace-only text trims to nothing and parses to
`null`. -/
theorem parseNumber_spec_witness : parseNumber (Cell.str "   ") = none :=
  parseNumber_spec.2.2.2.1 "   " (by decide)

/-! ### Claim C6 -/

theorem snd_mem_of_mem_enumFrom {α : Type _} :
    ∀ (n : ℕ) (l : List α) (p : ℕ × α), p ∈ List.enumFrom n l → p.2 ∈ l
  | _, [], p, h => by simp at h
  | n, x :: xs, p, h => by
    rcases List.mem_cons.mp h with h | h
    · subst h; simp
    · exact List.mem_cons_of_mem _ (snd_mem_of_mem_enumFrom (n + 1) xs p h)

theorem foldl_best_const (l : List (ℕ × List Cell)) (b : ℤ × ℕ)
    (h : ∀ p ∈ l, rowScore p.2 = 0) :
    l.foldl (fun (best : ℤ × ℕ) (p : ℕ × List Cell) =>
      if rowScore p.2 > best.2 then ((p.1 : ℤ), rowScore p.2) else best) b = b := by
  induction l generalizing b with
  | nil => rfl
  | cons p ps ih =>
    rw [List.foldl_cons]
    have hp := h p (List.mem_cons_self _ _)
    have hng : ¬ (rowScore p.2 > b.2) := by rw [hp]; omega
    rw [if_neg hng]
    exact ih b (fun q hq => h q (List.mem_cons_of_mem _ hq))

/-- When no row among the first 80 scores above zero, header detection
reports `-1`. -/
theorem findHeaderRow_all_zero {rows : List (List Cell)}
    (h : ∀ r ∈ rows.take 80, rowScore r = 0) : findHeaderRow rows = -1 := by
  rw [findHeaderRow]
  have hz : ∀ p ∈ (rows.take 80).enum, rowScore p.2 = 0 := by
    intro p hp
    exact h p.2 (snd_mem_of_mem_enumFrom 0 (rows.take 80) p hp)
  rw [foldl_best_const _ _ hz]

/-- Claim C6: neither parser throws on its hard-failure path — when no
candidate header row scores above zero, the budget parser returns an
empty item list with an explanatory warning; when the planned parser
finds neither a date/cost column pair nor at least 3 date-shaped
headers, it returns an empty curve with an explanatory warning. -/
theorem parser_hard_failures :
    (∀ (settings : Settings) (rows : List (List Cell)),
      (∀ r ∈ rows.take 80, rowScore r = 0) →
      parseBudgetFromSheet settings rows =
        ⟨[], ["No se encontró fila de encabezados."]⟩) ∧
    (∀ rows : List (List Cell), rows.length ≠ 0 →
      ¬ (jsFindIndex (plannedLower rows) (fun h => jsIncludes h "fecha") ≥ 0 ∧
         jsFindIndex (plannedLower rows)
           (fun h => jsIncludes h "costo" || jsIncludes h "cost") ≥ 0) →
      (plannedDateCols rows).length < 3 →
      parsePlanned rows =
        ⟨[], ["No pude detectar columnas de fecha/costo. Intenta una hoja con columnas 'Fecha' y 'Costo', o una exportación con fechas como encabezados."]⟩) := by
  constructor
  · intro settings rows h
    rw [parseBudgetFromSheet, findHeaderRow_all_zero h]
    norm_num
  · intro rows h0 hA hB
    simp only [parsePlanned]
    rw [if_neg h0]
    rw [show ((if 0 ≤ findHeaderRow rows then rows.getD (findHeaderRow rows).toNat []
        else []).map (fun h => trimS h.toStr)) = plannedHeader rows from rfl]
    rw [show ((plannedHeader rows).map toLowerS) = plannedLower rows from rfl]
    rw [if_neg hA]
    rw [show ((plannedHeader rows).enum.filterMap
        (fun p => (toISODate (Cell.str p.2)).map (fun iso => (p.1, iso)))) =
      plannedDateCols rows from rfl]
    rw [if_pos hB]

/-- Witness for C6: a sheet whose only cell is empty fails budget header
detection; a sheet whose only cell is "a" has neither shape for the
planned parser. -/
theorem parser_hard_failures_witness :
    parseBudgetFromSheet defaultSettings [[Cell.empty]] =
      ⟨[], ["No se encontró fila de encabezados."]⟩ ∧
    parsePlanned [[Cell.str "a"]] =
      ⟨[], ["No pude detectar columnas de fecha/costo. Intenta una hoja con columnas 'Fecha' y 'Costo', o una exportación con fechas como encabezados."]⟩ := by
  constructor
  · exact parser_hard_failures.1 defaultSettings [[Cell.empty]] (by decide)
  · exact parser_hard_failures.2 [[Cell.str "a"]] (by decide) (by decide) (by decide)

/-! ### Claim C7 -/

/-- Evaluation of the shared aggregation on the example points. -/
theorem aggregateCurve_exPPts :
    aggregateCurve exPPts = [⟨"2024-01-05", 150⟩, ⟨"2024-02-01", 175⟩] := by
  simp [aggregateCurve, exPPts, mapSet, mapGet, stableSort, insertSorted,
    jsStrLt, jsStrLtL, cumulate, List.find?]
  norm_num

/-- Claim C7: both recognised shapes funnel into the same aggregation
(`aggregateCurve`, called by `parsePlanned` on the extracted points of
either shape), which sums the raw costs per unique date, sorts the
distinct dates strictly ascending, and emits a running cumulative sum:
every emitted point carries the total cost of all raw points dated on or
before it, its date is one of the raw dates, and every raw date appears;
concretely, rows dated "2024-01-05" with costs 100 and 50 collapse into
the single point `{date 2024-01-05, cumulative 150}` and the later date
"2024-02-01" (cost 25) accumulates on top of it to 175. -/
theorem parsePlanned_curve_spec :
    (∀ points : List PlannedPoint,
      ((aggregateCurve points).map CurvePoint.date).Pairwise
        (fun a b => jsStrLt a b = true)) ∧
    (∀ (points : List PlannedPoint) (pt : CurvePoint), pt ∈ aggregateCurve points →
      pt.plannedCostAccum =
        ((points.filter (fun p => jsStrLe p.date pt.date)).map PlannedPoint.cost).sum ∧
      pt.date ∈ points.map PlannedPoint.date) ∧
    (∀ (points : List PlannedPoint) (p : PlannedPoint), p ∈ points →
      p.date ∈ (aggregateCurve points).map CurvePoint.date) ∧
    parsePlanned exPlannedRows =
      ⟨[⟨"2024-01-05", 150⟩, ⟨"2024-02-01", 175⟩],
       ["Programado: 2 punto(s) de curva cargados."]⟩ := by
  refine ⟨fun points => (aggregateCurve_spec points).1,
    fun points pt h => (aggregateCurve_spec points).2.1 pt h,
    fun points p h => (aggregateCurve_spec points).2.2 p h, ?_⟩
  calc parsePlanned exPlannedRows
      = ⟨aggregateCurve exPPts,
          if (aggregateCurve exPPts).length ≠ 0 then
            [s!"Programado: {(aggregateCurve exPPts).length} punto(s) de curva cargados."]
          else []⟩ := rfl
    _ = ⟨[⟨"2024-01-05", 150⟩, ⟨"2024-02-01", 175⟩],
         ["Programado: 2 punto(s) de curva cargados."]⟩ := by
        rw [aggregateCurve_exPPts]
        decide

/-- Witness for C7: the aggregation property instantiated at the example
points and the collapsed point `{2024-01-05, 150}`. -/
theorem parsePlanned_curve_witness :
    (⟨"2024-01-05", 150⟩ : CurvePoint).plannedCostAccum =
      ((exPPts.filter (fun p => jsStrLe p.date "2024-01-05")).map PlannedPoint.cost).sum ∧
    ("2024-01-05" : String) ∈ exPPts.map PlannedPoint.date := by
  have hmem : (⟨"2024-01-05", 150⟩ : CurvePoint) ∈ aggregateCurve exPPts := by
    rw [aggregateCurve_exPPts]
    simp
  exact parsePlanned_curve_spec.2.1 exPPts ⟨"2024-01-05", 150⟩ hmem

end Control
